import Mathlib

/-!
# VideoUpload: the upload page controller (`static/app.js`)

A shallow embedding of the client-side controller of the upload page and a
verification of its documented behaviour.

Conventions of the embedding.

* The page (the DOM elements the script holds) is a record; every handler is a
  function from page to page.  Effects that leave the page (network requests,
  `alert`, file reads, exceptions nobody catches) are logged in the record.
* An element is optional in the record exactly where the script tests it for
  `null` before use; the others are dereferenced unguarded by the script and
  are taken to exist.
* JavaScript numbers that hold whole quantities (byte counts, seconds, status
  codes) are naturals.  Where the script computes with fractions
  (`loaded / total * 90`, `timestamp / 60`) the IEEE-754 binary64 rounding of
  every operation is modelled explicitly on naturals.
* Where the script assigns to `innerHTML`, the record keeps the assigned markup
  string; the parse the element makes of it is not part of the embedding.
* Asynchronous code (`await`, `FileReader.onload`, XHR callbacks) is split at
  its suspension points: the part before is one step, each callback another.
-/

namespace VideoUpload

/-! # Part I: the embedding -/

/-! ## JavaScript primitives used by the script -/

/-- `String(n)` for a whole number `n` below `2 ^ 53`, where every whole number
is a binary64 value and prints as its decimal digits.  Used where the script's
number is bounded (a status code, a digit, the tenths of a file size); numbers
that come unbounded from a JSON body go through `numberToString`. -/
def numToString (n : Nat) : String := Nat.repr n

/-- `s.padStart(n, c)` for a one-character fill `c`. -/
def padStart (n : Nat) (c : Char) (s : String) : String :=
  ⟨List.replicate (n - s.data.length) c ++ s.data⟩

/-- Auxiliary for `floorLog`: divide by `base` until below it, at most `fuel`
times. -/
def floorLogAux (base : Nat) : Nat → Nat → Nat
  | 0, _ => 0
  | fuel + 1, n => if n < base ∨ base < 2 then 0 else floorLogAux base fuel (n / base) + 1

/-- The whole part of the logarithm of `n` to `base`: the greatest `i` with
`base ^ i ≤ n` (0 when there is none). -/
def floorLog (base n : Nat) : Nat := floorLogAux base n n

/-! ## File sizes (`formatFileSize`, lines 305-311) -/

/-- The constant `sizes`. -/
def sizes : List String := ["Bytes", "KB", "MB", "GB"]

/-- The whole number of tenths `x.toFixed(1)` prints for `x = num / den`: the
one nearest to `10 * x`, the larger one when two are equally near. -/
def toFixedTenths (num den : Nat) : Nat := (20 * num + den) / (2 * den)

/-- `x.toFixed(1)` for `x = num / den`: the whole part, a point, one digit. -/
def toFixed1 (num den : Nat) : String :=
  numToString (toFixedTenths num den / 10) ++ "." ++ numToString (toFixedTenths num den % 10)

/-- Value of a decimal digit character. -/
def digitVal (c : Char) : Nat := c.toNat - 48

/-- Value of a list of decimal digits, most significant first. -/
def decimalVal (l : List Char) : Nat := l.foldl (fun a c => 10 * a + digitVal c) 0

/-- `parseFloat(s)` for a text of digits, a point and one digit, in tenths. -/
def parseFloatTenths (s : String) : Nat :=
  10 * decimalVal (s.data.takeWhile (fun c => c != '.')) +
    decimalVal (((s.data.dropWhile (fun c => c != '.')).drop 1).take 1)

/-- `String(x)` for the number `x = n / 10`: no point when the tenth is zero. -/
def tenthsToString (n : Nat) : String :=
  if n % 10 = 0 then numToString (n / 10)
  else numToString (n / 10) ++ "." ++ numToString (n % 10)

/-- `formatFileSize(bytes)`.  `Math.floor(Math.log(bytes) / Math.log(k))` is the
whole part of the logarithm to base `k`; `bytes / Math.pow(k, i)` is exact. -/
def formatFileSize (bytes : Nat) : String :=
  if bytes = 0 then "0 Bytes"
  else
    let k := 1024
    let i := floorLog k bytes
    tenthsToString (parseFloatTenths (toFixed1 bytes (k ^ i))) ++ " " ++ sizes.getD i "undefined"

/-! ## Upload progress in binary64 (progress listener, line 201)

`event.loaded` and `event.total` are whole byte counts held as binary64 numbers.
The quotient, the product with 90 and `Math.round` are modelled with the
rounding IEEE-754 prescribes (round to nearest, ties to even, 53 significant
bits).  All values that occur are far from the overflow and underflow
thresholds, so a value is a whole numerator over a power of two. -/

/-- Index of the leading one bit of `n`: the binary exponent of `n` as a
binary64 value. -/
def ilog2 (n : Nat) : Nat := floorLog 2 n

/-- Nearest whole number to `num / den`, a tie going to the even neighbour
(IEEE-754 roundTiesToEven). -/
def roundHalfEven (num den : Nat) : Nat :=
  if 2 * (num % den) < den then num / den
  else if den < 2 * (num % den) then num / den + 1
  else if (num / den) % 2 = 0 then num / den
  else num / den + 1

/-- A whole number rounded to 53 significant bits: the binary64 value nearest to
`n`. -/
def roundTo53 (n : Nat) : Nat :=
  if ilog2 n ≤ 52 then n
  else roundHalfEven n (2 ^ (ilog2 n - 52)) * 2 ^ (ilog2 n - 52)

/-- A non-negative finite binary64 value, written `num / 2 ^ shift`. -/
structure Dyadic where
  num : Nat
  shift : Nat
deriving DecidableEq, Repr

/-- Binary64 quotient `a / b` of two positive whole binary64 values. -/
def divDouble (a b : Nat) : Dyadic :=
  if ilog2 a ≤ 52 + ilog2 b then
    let u := 52 + ilog2 b - ilog2 a
    if b * 2 ^ 52 ≤ a * 2 ^ u then ⟨roundHalfEven (a * 2 ^ u) b, u⟩
    else ⟨roundHalfEven (a * 2 ^ (u + 1)) b, u + 1⟩
  else
    let d := ilog2 a - ilog2 b - 52
    if b * 2 ^ d * 2 ^ 52 ≤ a then ⟨roundHalfEven a (b * 2 ^ d) * 2 ^ d, 0⟩
    else ⟨roundHalfEven a (b * 2 ^ (d - 1)) * 2 ^ (d - 1), 0⟩

/-- Binary64 product `x * 90`. -/
def mul90 (x : Dyadic) : Dyadic := ⟨roundTo53 (x.num * 90), x.shift⟩

/-- `Math.round(x)`: the whole number `floor(x + 1/2)`. -/
def mathRound (x : Dyadic) : Nat := (2 * x.num + 2 ^ x.shift) / 2 ^ (x.shift + 1)

/-- A JavaScript number as the progress bar receives it. -/
inductive Percent
  | nan
  | infinity
  | whole (n : Nat)
deriving DecidableEq, Repr

/-- `Math.round((event.loaded / event.total) * 90)`. -/
def uploadPercent (loaded total : Nat) : Percent :=
  if roundTo53 total = 0 then
    if roundTo53 loaded = 0 then .nan else .infinity
  else if roundTo53 loaded = 0 then .whole 0
  else .whole (mathRound (mul90 (divDouble (roundTo53 loaded) (roundTo53 total))))

/-- `Math.floor(x)`. -/
def mathFloor (x : Dyadic) : Nat := x.num / 2 ^ x.shift

/-! ## Numbers as text

`Number::toString` prints the decimal with the fewest digits that reads back as
the same binary64 value, padded with zeros up to `10 ^ 21` and in exponent form
from there on.  Below `2 ^ 53` that is the decimal of the whole number itself. -/

/-- The decimal with `k` significant digits (of the `n` digits of `v`) that
reads back as the binary64 value `v`, if there is one; of two, the nearer to
`v`, and at equal distance the one whose last digit is even. -/
def roundTripWith (v n k : Nat) : Option Nat :=
  let scale := 10 ^ (n - k)
  let lo := v / scale * scale
  let hi := lo + scale
  let okLo := decide (roundTo53 lo = v)
  let okHi := decide (roundTo53 hi = v)
  if okLo && okHi then
    if v - lo < hi - v then some lo
    else if hi - v < v - lo then some hi
    else if (v / scale) % 2 = 0 then some lo else some hi
  else if okLo then some lo
  else if okHi then some hi
  else none

/-- Search for the least number of digits, from `k` on, at most `fuel` steps. -/
def shortestFrom (v n : Nat) : Nat → Nat → Nat
  | 0, _ => v
  | fuel + 1, k =>
    match roundTripWith v n k with
    | some w => w
    | none => shortestFrom v n fuel (k + 1)

/-- The decimal with the fewest significant digits that reads back as the whole
binary64 value `v` (17 digits always do). -/
def shortestRoundTrip (v : Nat) : Nat := shortestFrom v (floorLog 10 v + 1) 17 1

/-- The number `w` without its trailing zeros. -/
def stripZeros : Nat → Nat → Nat
  | 0, w => w
  | fuel + 1, w => if w % 10 = 0 ∧ w ≠ 0 then stripZeros fuel (w / 10) else w

/-- The exponent form `d.ddde+N` of a whole number from `10 ^ 21` on. -/
def expFormat (w : Nat) : String :=
  match (Nat.repr (stripZeros w w)).data with
  | [] => ""
  | [d] => String.mk [d] ++ "e+" ++ Nat.repr (floorLog 10 w)
  | d :: rest => String.mk (d :: '.' :: rest) ++ "e+" ++ Nat.repr (floorLog 10 w)

/-- `String(v)` for a whole binary64 value `v` of any size. -/
def numberToString (v : Nat) : String :=
  if v < 2 ^ 53 then numToString v
  else if shortestRoundTrip v < 10 ^ 21 then Nat.repr (shortestRoundTrip v)
  else expFormat (shortestRoundTrip v)

/-! ## Frame timestamps (generate-frames handler, lines 122-124)

`frame.timestamp` is a JSON number; a whole number `timestamp` of seconds is
held as the binary64 value `roundTo53 timestamp`. -/

/-- `Math.floor(frame.timestamp / 60)`: the binary64 quotient, rounded down. -/
def frameMinutes (timestamp : Nat) : Nat :=
  if roundTo53 timestamp = 0 then 0 else mathFloor (divDouble (roundTo53 timestamp) 60)

/-- `Math.floor(frame.timestamp % 60)`: the remainder of a binary64 value is
exact. -/
def frameSeconds (timestamp : Nat) : Nat := roundTo53 timestamp % 60

/-- The template `${minutes}:${seconds.toString().padStart(2, '0')}`. -/
def timeStr (timestamp : Nat) : String :=
  numberToString (frameMinutes timestamp) ++ ":" ++
    padStart 2 '0' (numberToString (frameSeconds timestamp))

/-! ## Values read from JSON -/

/-- A value the script reads out of a parsed JSON body.  The script only ever
tests such a value for truthiness and splices it into text, so a value that is
neither absent, `null`, a boolean nor a string is carried by those two
observations. -/
inductive JsVal
  | undefined
  | null
  | bool (b : Bool)
  | str (s : String)
  | other (truthy : Bool) (text : String)
deriving DecidableEq, Repr

/-- JavaScript `ToBoolean`. -/
def JsVal.truthy : JsVal → Bool
  | .undefined => false
  | .null => false
  | .bool b => b
  | .str s => decide (s ≠ "")
  | .other t _ => t

/-- JavaScript `ToString`, as in a template literal or `new Error(v)`. -/
def JsVal.toStr : JsVal → String
  | .undefined => "undefined"
  | .null => "null"
  | .bool true => "true"
  | .bool false => "false"
  | .str s => s
  | .other _ t => t

/-- An exception raised by the engine rather than by the script. -/
inductive JsError
  | typeError
  | rangeError
  | syntaxError
deriving DecidableEq, Repr

/-- Wording that belongs to the JavaScript engine, not to the script. -/
structure Engine where
  /-- Message of the `TypeError` for reading property `prop` of `null` or
  `undefined` (`base` says which). -/
  readOfNullish : (base prop : String) → String

/-! ## The page -/

/-- A file as the browser hands it to the script. -/
structure File where
  name : String
  size : Nat
  /-- What `FileReader.readAsDataURL` produces for the file. -/
  dataUrl : String
deriving DecidableEq, Repr

/-- The element `#resultContainer`, as the script sets it. -/
structure ResultArea where
  display : String
  /-- The markup the script last assigned to `innerHTML`.  The element parses
  it: what it then holds and shows is the parse of this string, which is the
  string's own text only when no `<`, `&` or quote was spliced in. -/
  assignedHtml : String
deriving DecidableEq, Repr

/-- A `div.frame-item` under `#framesList`. -/
structure FrameItem where
  /-- `dataset.path`. -/
  path : String
  /-- `dataset.url`. -/
  url : String
  /-- Whether the class list holds `selected`. -/
  selected : Bool
  /-- The markup the script assigned to `innerHTML` (parsed by the element, as
  for the result area). -/
  assignedHtml : String
deriving DecidableEq, Repr

/-- A drop zone with its file input. -/
structure DropZone where
  /-- Whether the zone carries the class `drag-over`. -/
  dragOver : Bool
  /-- `input.files`. -/
  files : List File
  /-- How often `input.click()` opened the native picker. -/
  pickerOpened : Nat
deriving DecidableEq, Repr

/-- One frame of the `/extract-frames` response. -/
structure FrameData where
  index : Nat
  timestamp : Nat
  path : String
  url : String
deriving DecidableEq, Repr

/-- The multipart body of a request, as far as the script decides it. -/
inductive Request
  | upload (video thumbnail : List File) (selectedFramePath : Option String)
      (publishAt : Option String) (madeForKids : String)
  | extractFrames (video : Option File)
deriving DecidableEq, Repr

/-- The page: the elements the script reads and writes, and a log of what left
the page. -/
structure Page where
  videoDropZonePresent : Bool
  thumbDropZonePresent : Bool
  videoZone : DropZone
  thumbZone : DropZone
  videoFileName : String
  videoFileSize : String
  videoDropContentDisplay : String
  videoPreviewDisplay : String
  thumbDropContentDisplay : String
  thumbPreviewDisplay : String
  thumbImageSrc : String
  /-- Value of the hidden input `#selectedFramePath`; `none` when the page has
  no such element. -/
  selectedFramePath : Option String
  frames : List FrameItem
  generateFramesBtnDisabled : Bool
  framesLoadingDisplay : String
  framesGridDisplay : String
  uploadBtnDisabled : Bool
  progressContainerDisplay : String
  /-- `progressFill.style.width`; `none` when the element is absent. -/
  progressFill : Option String
  /-- `progressPercent.textContent`; `none` when the element is absent. -/
  progressPercent : Option String
  /-- `progressLabel.textContent`; `none` when the element is absent. -/
  progressLabel : Option String
  resultContainer : Option ResultArea
  /-- Requests sent so far, oldest first. -/
  requests : List Request
  /-- Texts shown with `alert`, oldest first. -/
  alerts : List String
  /-- Files whose `FileReader` read was started and has not ended. -/
  pendingReads : List File
  /-- Uploads sent whose promise is not settled. -/
  uploadsInFlight : Nat
  /-- Extraction requests awaiting their response. -/
  extractsInFlight : Nat
  /-- Exceptions no handler caught. -/
  uncaught : List JsError
deriving DecidableEq, Repr

/-! ## Helper functions of the script (lines 253-311) -/

/-- Events a drop zone and its input receive. -/
inductive ZoneEvent
  | click
  | change
  | dragenter
  | dragover
  | dragleave
  | drop (files : List File)
deriving DecidableEq, Repr

/-- `setupDropZone(zone, input, onFileSelected)`: the listeners it attaches, as
the effect of one event on the zone together with the files `onFileSelected` is
called with, in call order.  With a missing zone or input nothing is attached. -/
def setupDropZone (zone input : Bool) (e : ZoneEvent) (z : DropZone) :
    DropZone × List File :=
  if !zone || !input then (z, [])
  else
    match e with
    | .click => ({ z with pickerOpened := z.pickerOpened + 1 }, [])
    | .change =>
      match z.files with
      | [] => (z, [])
      | f :: _ => (z, [f])
    | .dragenter => ({ z with dragOver := true }, [])
    | .dragover => ({ z with dragOver := true }, [])
    | .dragleave => ({ z with dragOver := false }, [])
    | .drop files =>
      match files with
      | [] => ({ z with dragOver := false }, [])
      | f :: _ => ({ z with dragOver := false, files := [f] }, [f])

/-- `Percent` spliced into text. -/
def Percent.toStr : Percent → String
  | .nan => "NaN"
  | .infinity => "Infinity"
  | .whole n => numberToString n

/-- `setProgress(percent, label)`; `label = none` is a call without label. -/
def setProgress (percent : Percent) (label : Option String) (p : Page) : Page :=
  { p with
    progressFill := p.progressFill.map (fun _ => percent.toStr ++ "%")
    progressPercent := p.progressPercent.map (fun _ => percent.toStr ++ "%")
    progressLabel :=
      match label with
      | none => p.progressLabel
      | some l => if l = "" then p.progressLabel else p.progressLabel.map (fun _ => l) }

/-- `showResult(type, html)`: the display style and the markup it assigns. -/
def showResult (type html : String) (p : Page) : Page :=
  match p.resultContainer with
  | none => p
  | some _ =>
    { p with
      resultContainer :=
        some ⟨"block", "<div class=\"result-" ++ type ++ "\">" ++ html ++ "</div>"⟩ }

/-! ## Thumbnail sources (lines 46-78 and 146-164) -/

/-- `clearFrameSelection()`. -/
def clearFrameSelection (p : Page) : Page :=
  { p with
    frames := p.frames.map (fun f => { f with selected := false })
    selectedFramePath := p.selectedFramePath.map (fun _ => "") }

/-- `selectFrame(frameElement)` for the `i`-th frame item.  When the page has no
`#selectedFramePath` the assignment to its value throws after the marks were
updated. -/
def selectFrame (i : Nat) (p : Page) : Page :=
  match p.frames[i]? with
  | none => p
  | some f =>
    let marked :=
      (p.frames.map (fun g => { g with selected := false })).set i { f with selected := true }
    match p.selectedFramePath with
    | none => { p with frames := marked, uncaught := p.uncaught ++ [JsError.typeError] }
    | some _ =>
      { p with
        frames := marked
        selectedFramePath := some f.path
        thumbImageSrc := f.url
        thumbDropContentDisplay := "none"
        thumbPreviewDisplay := "block"
        thumbZone := { p.thumbZone with files := [] } }

/-- The callback of the video drop zone. -/
def onVideoSelected (file : File) (p : Page) : Page :=
  { p with
    videoFileName := file.name
    videoFileSize := formatFileSize file.size
    videoDropContentDisplay := "none"
    videoPreviewDisplay := "flex" }

/-- The callback of the thumbnail drop zone: it starts a `FileReader` read and
returns; the page changes when the read fires `load`. -/
def onThumbSelected (file : File) (p : Page) : Page :=
  { p with pendingReads := p.pendingReads ++ [file] }

/-- `reader.onload` of the `i`-th pending thumbnail read. -/
def readerOnload (i : Nat) (p : Page) : Page :=
  match p.pendingReads[i]? with
  | none => p
  | some file =>
    clearFrameSelection
      { p with
        pendingReads := p.pendingReads.eraseIdx i
        thumbImageSrc := file.dataUrl
        thumbDropContentDisplay := "none"
        thumbPreviewDisplay := "block" }

/-- The `i`-th pending thumbnail read ends in `error` or `abort`.  The script
sets `reader.onload` only, so nothing on the page changes: the read is over. -/
def readerOnerror (i : Nat) (p : Page) : Page :=
  { p with pendingReads := p.pendingReads.eraseIdx i }

/-- An event on the video drop zone or its input. -/
def videoZoneEvent (e : ZoneEvent) (p : Page) : Page :=
  let r := setupDropZone p.videoDropZonePresent true e p.videoZone
  r.2.foldl (fun q f => onVideoSelected f q) { p with videoZone := r.1 }

/-- An event on the thumbnail drop zone or its input. -/
def thumbZoneEvent (e : ZoneEvent) (p : Page) : Page :=
  let r := setupDropZone p.thumbDropZonePresent true e p.thumbZone
  r.2.foldl (fun q f => onThumbSelected f q) { p with thumbZone := r.1 }

/-- Click on `#removeVideo`. -/
def onRemoveVideo (p : Page) : Page :=
  { p with
    videoZone := { p.videoZone with files := [] }
    videoDropContentDisplay := "block"
    videoPreviewDisplay := "none" }

/-- Click on `#removeThumb`. -/
def onRemoveThumb (p : Page) : Page :=
  clearFrameSelection
    { p with
      thumbZone := { p.thumbZone with files := [] }
      thumbDropContentDisplay := "block"
      thumbPreviewDisplay := "none" }

/-! ## Frame extraction (lines 80-144) -/

/-- The parsed body of the `/extract-frames` response, as far as the handler
reads it: `null`, or a value with its `error` and `frames` properties
(`frames = none` when the property is missing). -/
inductive ExtractData
  | null
  | value (error : JsVal) (frames : Option (List FrameData))
deriving DecidableEq, Repr

/-- How the awaited extraction ends: `fetch` or `response.json()` rejects with
an error of the given message, or a body arrives with `response.ok`. -/
inductive ExtractOutcome
  | failed (message : String)
  | response (ok : Bool) (data : ExtractData)
deriving DecidableEq, Repr

/-- The frame item built in the `forEach` body. -/
def frameItem (frame : FrameData) : FrameItem :=
  { path := frame.path
    url := frame.url
    selected := false
    assignedHtml :=
      "\n                        <img src=\"" ++ frame.url ++ "\" alt=\"Frame " ++
        numberToString (roundTo53 (roundTo53 frame.index + 1)) ++ "\">" ++
        "\n                        <span class=\"frame-timestamp\">" ++
        timeStr frame.timestamp ++ "</span>\n                    " }

/-- `alert(text)`. -/
def alert (text : String) (p : Page) : Page := { p with alerts := p.alerts ++ [text] }

/-- Click on `#generateFramesBtn`, up to the awaited `fetch`. -/
def onGenerateFramesClick (p : Page) : Page :=
  match p.videoZone.files with
  | [] => alert "יש לבחור קובץ וידאו קודם." p
  | video :: _ =>
    { p with
      generateFramesBtnDisabled := true
      framesLoadingDisplay := "flex"
      framesGridDisplay := "none"
      requests := p.requests ++ [Request.extractFrames video]
      extractsInFlight := p.extractsInFlight + 1 }

/-- The rest of the generate-frames handler, once the awaited response is
there: the `try` body, its `catch` and its `finally`. -/
def onExtractSettled (eng : Engine) (o : ExtractOutcome) (p : Page) : Page :=
  let q :=
    match o with
    | .failed m => alert ("שגיאה: " ++ m) p
    | .response false .null => alert ("שגיאה: " ++ eng.readOfNullish "null" "error") p
    | .response false (.value error _) =>
      alert ("שגיאה: " ++ (if error.truthy then error.toStr else "שגיאה בחילוץ פריימים")) p
    | .response true .null =>
      alert ("שגיאה: " ++ eng.readOfNullish "null" "frames") { p with frames := [] }
    | .response true (.value _ none) =>
      alert ("שגיאה: " ++ eng.readOfNullish "undefined" "forEach") { p with frames := [] }
    | .response true (.value _ (some frames)) =>
      { p with frames := frames.map frameItem, framesGridDisplay := "block" }
  { q with generateFramesBtnDisabled := false, framesLoadingDisplay := "none" }

/-! ## Form submission (lines 166-249) -/

/-- The `publish_at` field: empty, a date `new Date(...)` can read (with the
text `toISOString()` gives for it), or one it cannot. -/
inductive PublishAt
  | blank
  | valid (iso : String)
  | invalid
deriving DecidableEq, Repr

/-- What the submit handler reads from the form besides the files. -/
structure FormInput where
  publishAt : PublishAt
  madeForKids : Bool
deriving DecidableEq, Repr

/-- The properties the submit handler reads from the parsed `/upload` body. -/
structure UploadFields where
  success : JsVal
  error : JsVal
  video_url : JsVal
  video_id : JsVal
  thumbnail_error : JsVal
deriving DecidableEq, Repr

/-- `JSON.parse(xhr.responseText)` when it returns: `null`, or a value whose
properties are read (a missing property reads `undefined`, also on a number,
string, boolean or array). -/
inductive Json
  | null
  | value (f : UploadFields)
deriving DecidableEq, Repr

/-- How the upload request ends.  `body = none` is a response text that
`JSON.parse` rejects with a `SyntaxError`. -/
inductive XhrFinish
  | load (status : Nat) (body : Option Json)
  | error
deriving DecidableEq, Repr

/-- What becomes of the promise the handler awaits. -/
inductive Settled
  | resolved (response : Json)
  | rejected (message : String)
  /-- The callback threw before calling `resolve` or `reject`: the promise
  stays pending. -/
  | thrown (e : JsError)
deriving DecidableEq, Repr

/-- `xhr.onload`. -/
def xhrOnload (status : Nat) (body : Option Json) : Settled :=
  if 200 ≤ status ∧ status < 300 then
    match body with
    | none => .thrown .syntaxError
    | some response => .resolved response
  else
    match body with
    | none => .rejected ("שגיאה " ++ numToString status)
    | some .null => .rejected ("שגיאה " ++ numToString status)
    | some (.value err) =>
      .rejected (if err.error.truthy then err.error.toStr else "שגיאה בהעלאה")

/-- `xhr.onerror`. -/
def xhrOnerror : Settled := .rejected "שגיאת רשת"

/-- The callback that runs when the request ends. -/
def settle : XhrFinish → Settled
  | .load status body => xhrOnload status body
  | .error => xhrOnerror

/-- The first three paragraphs of the success message. -/
def successHead (response : UploadFields) : String :=
  "<h3>✅ הסרטון הועלה בהצלחה!</h3>\n                    <p><a href=\"" ++
    response.video_url.toStr ++
    "\" target=\"_blank\">🔗 לצפייה בסרטון</a></p>\n                    " ++
    "<p style=\"font-size:0.85rem; color: var(--text-muted);\">Video ID: " ++
    response.video_id.toStr ++ "</p>"

/-- The paragraph appended for a truthy `thumbnail_error`. -/
def thumbnailWarning (response : UploadFields) : String :=
  "<p style=\"color: var(--yellow); font-size: 0.85rem; margin-top: 0.5rem;\">" ++
    "\n                        ⚠️ תמונת תצוגה: " ++ response.thumbnail_error.toStr ++ "</p>"

/-- The variable `msg` of the success branch. -/
def successMessage (response : UploadFields) : String :=
  if response.thumbnail_error.truthy then successHead response ++ thumbnailWarning response
  else successHead response

/-- The `catch` block of the submit handler. -/
def submitCatch (message : String) (p : Page) : Page :=
  showResult "error" ("<h3>❌ שגיאה</h3><p>" ++ message ++ "</p>")
    (setProgress (.whole 0) none p)

/-- The `finally` block of the submit handler. -/
def submitFinally (p : Page) : Page := { p with uploadBtnDisabled := false }

/-- The submit handler up to its `await`. -/
def onSubmit (form : FormInput) (p : Page) : Page :=
  if p.videoZone.files.length = 0 then showResult "error" "יש לבחור קובץ וידאו." p
  else
    match form.publishAt with
    | .invalid => { p with uncaught := p.uncaught ++ [JsError.rangeError] }
    | publishAt =>
      let body :=
        Request.upload p.videoZone.files p.thumbZone.files p.selectedFramePath
          (match publishAt with
            | .valid iso => some iso
            | _ => none)
          (if form.madeForKids then "true" else "false")
      let p1 := { p with uploadBtnDisabled := true, progressContainerDisplay := "block" }
      match p1.resultContainer with
      | none => { p1 with uncaught := p1.uncaught ++ [JsError.typeError] }
      | some r =>
        let p2 :=
          setProgress (.whole 0) (some "מתחיל העלאה...")
            { p1 with resultContainer := some { r with display := "none" } }
        setProgress (.whole 5) (some "שולח קבצים לשרת...")
          { p2 with requests := p2.requests ++ [body], uploadsInFlight := p2.uploadsInFlight + 1 }

/-- The listener on `xhr.upload` for `progress`. -/
def onUploadProgress (lengthComputable : Bool) (loaded total : Nat) (p : Page) : Page :=
  if lengthComputable then setProgress (uploadPercent loaded total) (some "מעלה קובץ...") p
  else p

/-- The submit handler after its `await`. -/
def onUploadSettled (eng : Engine) (s : Settled) (p : Page) : Page :=
  match s with
  | .thrown e => { p with uncaught := p.uncaught ++ [e] }
  | .rejected message => submitFinally (submitCatch message p)
  | .resolved .null =>
    submitFinally
      (submitCatch (eng.readOfNullish "null" "success")
        (setProgress (.whole 100) (some "הושלם!") p))
  | .resolved (.value response) =>
    let p1 := setProgress (.whole 100) (some "הושלם!") p
    submitFinally
      (if response.success.truthy then showResult "success" (successMessage response) p1
       else p1)

/-! ## The page as an event system -/

/-- What can happen to the page. -/
inductive Event
  /-- The user chooses files in the native picker of the video input. -/
  | pickVideo (files : List File)
  | videoZone (e : ZoneEvent)
  | removeVideo
  /-- The user chooses files in the native picker of the thumbnail input. -/
  | pickThumb (files : List File)
  | thumbZone (e : ZoneEvent)
  | removeThumb
  /-- The `i`-th pending thumbnail read fires `load`. -/
  | readerLoad (i : Nat)
  /-- The `i`-th pending thumbnail read fires `error` or `abort`. -/
  | readerFail (i : Nat)
  | generateFrames
  | extractDone (o : ExtractOutcome)
  | clickFrame (i : Nat)
  | submit (form : FormInput)
  | uploadProgress (lengthComputable : Bool) (loaded total : Nat)
  | uploadDone (f : XhrFinish)
deriving DecidableEq, Repr

/-- One event handled to completion. -/
def step (eng : Engine) (e : Event) (p : Page) : Page :=
  match e with
  | .pickVideo files =>
    videoZoneEvent .change { p with videoZone := { p.videoZone with files := files } }
  | .videoZone z => videoZoneEvent z p
  | .removeVideo => onRemoveVideo p
  | .pickThumb files =>
    thumbZoneEvent .change { p with thumbZone := { p.thumbZone with files := files } }
  | .thumbZone z => thumbZoneEvent z p
  | .removeThumb => onRemoveThumb p
  | .readerLoad i => readerOnload i p
  | .readerFail i => readerOnerror i p
  | .generateFrames => onGenerateFramesClick p
  | .extractDone o =>
    if p.extractsInFlight = 0 then p
    else onExtractSettled eng o { p with extractsInFlight := p.extractsInFlight - 1 }
  | .clickFrame i => selectFrame i p
  | .submit form => onSubmit form p
  | .uploadProgress lc loaded total =>
    if p.uploadsInFlight = 0 then p else onUploadProgress lc loaded total p
  | .uploadDone f =>
    if p.uploadsInFlight = 0 then p
    else onUploadSettled eng (settle f) { p with uploadsInFlight := p.uploadsInFlight - 1 }

/-- A sequence of events, handled in order. -/
def run (eng : Engine) (es : List Event) (p : Page) : Page :=
  es.foldl (fun q e => step eng e q) p

/-- A freshly loaded page: every element present, nothing chosen, no frames. -/
def Page.blank : Page :=
  { videoDropZonePresent := true
    thumbDropZonePresent := true
    videoZone := ⟨false, [], 0⟩
    thumbZone := ⟨false, [], 0⟩
    videoFileName := ""
    videoFileSize := ""
    videoDropContentDisplay := "block"
    videoPreviewDisplay := "none"
    thumbDropContentDisplay := "block"
    thumbPreviewDisplay := "none"
    thumbImageSrc := ""
    selectedFramePath := some ""
    frames := []
    generateFramesBtnDisabled := false
    framesLoadingDisplay := "none"
    framesGridDisplay := "none"
    uploadBtnDisabled := false
    progressContainerDisplay := "none"
    progressFill := some "0%"
    progressPercent := some "0%"
    progressLabel := some ""
    resultContainer := some ⟨"none", ""⟩
    requests := []
    alerts := []
    pendingReads := []
    uploadsInFlight := 0
    extractsInFlight := 0
    uncaught := [] }

/-! ## Notions used to state the properties -/

/-- The text `hay` has `needle` as a contiguous part. -/
def contains (hay needle : String) : Prop := needle.data <:+: hay.data

/-- The claim's `round(90 * loaded / total)`: the whole number nearest to the
exact quotient, a half going up as `Math.round` does. -/
def specPercent (loaded total : Nat) : Nat := (2 * (90 * loaded) + total) / (2 * total)

/-- The whole number `uploadPercent` yields for a positive total. -/
def wholePercent (loaded total : Nat) : Nat :=
  if loaded = 0 then 0
  else mathRound (mul90 (divDouble (roundTo53 loaded) (roundTo53 total)))

/-- Order of two binary64 values: `x ≤ y`. -/
def Dyadic.le (x y : Dyadic) : Prop := x.num * 2 ^ y.shift ≤ y.num * 2 ^ x.shift

/-- The markup `showResult('error', ...)` gets from the `catch` block for an
error with the given message. -/
def errorHtml (message : String) : String :=
  "<div class=\"result-error\">" ++ ("<h3>❌ שגיאה</h3><p>" ++ message ++ "</p>") ++ "</div>"

/-- The initial page state: the thumbnail drop zone and the hidden path input
exist, no thumbnail file is chosen, the selected-frame path is empty and no
frame is marked. -/
def Initial (p : Page) : Prop :=
  p.thumbDropZonePresent = true ∧ p.thumbZone.files = [] ∧ p.selectedFramePath = some "" ∧
    ∀ f ∈ p.frames, f.selected = false

/-- At most one frame item carries the mark `selected`. -/
def AtMostOneSelected (frames : List FrameItem) : Prop :=
  ∀ (i j : Nat) (fi fj : FrameItem), frames[i]? = some fi → frames[j]? = some fj →
    fi.selected = true → fj.selected = true → i = j

/-- No frame of the list is marked. -/
def NoneSelected (frames : List FrameItem) : Prop := ∀ f ∈ frames, f.selected = false

/-- Agreement of two pages on the fields the invariant reads. -/
def SameCore (q p : Page) : Prop :=
  q.selectedFramePath = p.selectedFramePath ∧ q.frames = p.frames

/-- What every reachable page satisfies. -/
structure Inv (p : Page) : Prop where
  path : p.selectedFramePath.isSome = true
  one : AtMostOneSelected p.frames
  stored : ∀ f ∈ p.frames, f.selected = true → p.selectedFramePath = some f.path

/-! ## Concrete pages and runs -/

/-- The engine wording used for concrete runs (V8). -/
def Engine.v8 : Engine :=
  ⟨fun base prop => "Cannot read properties of " ++ base ++ " (reading \'" ++ prop ++ "\')"⟩

/-- A video file for concrete runs. -/
def sampleVideo : File := ⟨"clip.mp4", 1572864, "data:video/mp4;base64,AAAA"⟩

/-- An image file for concrete runs. -/
def sampleThumb : File := ⟨"cover.png", 2048, "data:image/png;base64,BBBB"⟩

/-- An extracted frame for concrete runs. -/
def sampleFrame : FrameData := ⟨0, 75, "/tmp/frames/frame_0.jpg", "/frames/frame_0.jpg"⟩

/-- A second extracted frame for concrete runs. -/
def sampleFrame2 : FrameData := ⟨1, 150, "/tmp/frames/frame_1.jpg", "/frames/frame_1.jpg"⟩

/-- A page on which an upload is in flight: a video was chosen and the form
submitted. -/
def uploadingPage : Page :=
  step Engine.v8 (.submit ⟨.blank, false⟩) (step Engine.v8 (.pickVideo [sampleVideo]) Page.blank)

/-- The body of an error response whose `error` text carries markup characters. -/
def quotaError : UploadFields :=
  ⟨.undefined, .str "Quota <exceeded> & retry", .undefined, .undefined, .undefined⟩

/-- The body of a successful response without `thumbnail_error` whose video id
is the text of the thumbnail warning. -/
def warningInId : UploadFields :=
  ⟨.bool true, .undefined, .str "https://youtu.be/abc", .str "⚠️ תמונת תצוגה: abc", .undefined⟩

/-- A video is chosen, frames are generated and arrive, the first frame is
clicked, then a local thumbnail file is chosen. -/
def frameThenFile : List Event :=
  [.pickVideo [sampleVideo], .generateFrames,
    .extractDone (.response true (.value .undefined (some [sampleFrame, sampleFrame2]))),
    .clickFrame 0, .pickThumb [sampleThumb]]

/-- Frames are generated and the first, then the second frame is clicked. -/
def clickTwoFrames : List Event :=
  [.pickVideo [sampleVideo], .generateFrames,
    .extractDone (.response true (.value .undefined (some [sampleFrame, sampleFrame2]))),
    .clickFrame 0, .clickFrame 1]

/-! # Part II: the properties -/

/-! ## Text containment -/

theorem contains_mid (a b c : String) : contains (a ++ b ++ c) b :=
  ⟨a.data, c.data, by simp [String.data_append]⟩

theorem contains_trans {a b c : String} (h1 : contains a b) (h2 : contains b c) : contains a c :=
  List.IsInfix.trans h2 h1

theorem contains_append_left (a b : String) : contains (a ++ b) a :=
  ⟨[], b.data, by simp [String.data_append]⟩

theorem contains_append_right (a b : String) : contains (a ++ b) b :=
  ⟨a.data, [], by simp [String.data_append]⟩

/-! ## Decimal numerals -/

theorem digitVal_digitChar (d : Nat) (h : d < 10) : digitVal (Nat.digitChar d) = d := by
  interval_cases d <;> rfl

theorem decimalVal_append_singleton (l : List Char) (c : Char) :
    decimalVal (l ++ [c]) = 10 * decimalVal l + digitVal c := by
  simp [decimalVal, List.foldl_append]

theorem toDigitsCore_append (f : Nat) : ∀ (n : Nat) (ds : List Char),
    Nat.toDigitsCore 10 f n ds = Nat.toDigitsCore 10 f n [] ++ ds := by
  induction f with
  | zero => intro n ds; simp [Nat.toDigitsCore]
  | succ f ih =>
    intro n ds
    simp only [Nat.toDigitsCore]
    split
    · simp
    · rw [ih (n / 10) (Nat.digitChar (n % 10) :: ds), ih (n / 10) [Nat.digitChar (n % 10)]]
      simp

theorem decimalVal_toDigitsCore (f : Nat) : ∀ n : Nat, n < f →
    decimalVal (Nat.toDigitsCore 10 f n []) = n := by
  induction f with
  | zero => intro n h; omega
  | succ f ih =>
    intro n h
    simp only [Nat.toDigitsCore]
    split
    · rename_i h0
      have hn : n < 10 := by omega
      have hm : n % 10 = n := Nat.mod_eq_of_lt hn
      simp [decimalVal, hm, digitVal_digitChar n hn]
    · rename_i h0
      rw [toDigitsCore_append, decimalVal_append_singleton,
        ih (n / 10) (by omega), digitVal_digitChar (n % 10) (Nat.mod_lt _ (by decide))]
      omega

theorem decimalVal_numToString (n : Nat) : decimalVal (numToString n).data = n := by
  simp only [numToString, Nat.repr, Nat.toDigits, List.asString]
  exact decimalVal_toDigitsCore (n + 1) n (Nat.lt_succ_self n)

theorem numToString_injective {a b : Nat} (h : numToString a = numToString b) : a = b := by
  have := congrArg (fun s => decimalVal s.data) h
  simpa [decimalVal_numToString] using this

theorem numberToString_of_lt (n : Nat) (h : n < 2 ^ 53) : numberToString n = numToString n := by
  unfold numberToString
  rw [if_pos h]

/-! ## Binary64 arithmetic of the progress percentage -/

theorem floorLogAux_spec (b : Nat) (hb : 2 ≤ b) (f : Nat) : ∀ n : Nat, n ≤ f → n ≠ 0 →
    b ^ floorLogAux b f n ≤ n ∧ n < b ^ (floorLogAux b f n + 1) := by
  induction f with
  | zero => intro n h h0; omega
  | succ f ih =>
    intro n h h0
    simp only [floorLogAux]
    split
    · rename_i hlt
      have : n < b := by omega
      constructor
      · simp; omega
      · simpa using this
    · rename_i h2
      have hnb : b ≤ n := by omega
      have hdiv : n / b ≠ 0 := by
        have := Nat.div_pos hnb (by omega : 0 < b)
        omega
      have hlt : n / b < n := Nat.div_lt_self (by omega) (by omega)
      obtain ⟨i1, i2⟩ := ih (n / b) (by omega) hdiv
      have hm := Nat.div_add_mod n b
      have hr := Nat.mod_lt n (by omega : 0 < b)
      constructor
      · calc b ^ (floorLogAux b f (n / b) + 1) = b * b ^ floorLogAux b f (n / b) := by
              rw [Nat.pow_succ, Nat.mul_comm]
          _ ≤ b * (n / b) := Nat.mul_le_mul_left _ i1
          _ ≤ n := by omega
      · calc n < b * (n / b + 1) := by rw [Nat.mul_add]; omega
          _ ≤ b * b ^ (floorLogAux b f (n / b) + 1) := Nat.mul_le_mul_left _ i2
          _ = b ^ (floorLogAux b f (n / b) + 1 + 1) := by
              rw [Nat.pow_succ _ (floorLogAux b f (n / b) + 1), Nat.mul_comm]

theorem floorLog_spec (b n : Nat) (hb : 2 ≤ b) (h0 : n ≠ 0) :
    b ^ floorLog b n ≤ n ∧ n < b ^ (floorLog b n + 1) :=
  floorLogAux_spec b hb n n (Nat.le_refl n) h0

theorem floorLog_eq_of (b n k : Nat) (hb : 2 ≤ b) (h1 : b ^ k ≤ n) (h2 : n < b ^ (k + 1)) :
    floorLog b n = k := by
  have h0 : n ≠ 0 := by
    have : 0 < b ^ k := Nat.pow_pos (by omega)
    omega
  obtain ⟨h3, h4⟩ := floorLog_spec b n hb h0
  have h5 : floorLog b n < k + 1 := (Nat.pow_lt_pow_iff_right (by omega : 1 < b)).1 (by omega)
  have h6 : k < floorLog b n + 1 := (Nat.pow_lt_pow_iff_right (by omega : 1 < b)).1 (by omega)
  omega

theorem ilog2_spec (n : Nat) (h0 : n ≠ 0) : 2 ^ ilog2 n ≤ n ∧ n < 2 ^ (ilog2 n + 1) :=
  floorLog_spec 2 n (Nat.le_refl 2) h0

theorem ilog2_eq_of (n k : Nat) (h1 : 2 ^ k ≤ n) (h2 : n < 2 ^ (k + 1)) : ilog2 n = k :=
  floorLog_eq_of 2 n k (Nat.le_refl 2) h1 h2

theorem ilog2_mono {a b : Nat} (ha : a ≠ 0) (h : a ≤ b) : ilog2 a ≤ ilog2 b := by
  obtain ⟨h1, _⟩ := ilog2_spec a ha
  obtain ⟨_, h4⟩ := ilog2_spec b (by omega)
  have : ilog2 a < ilog2 b + 1 := (Nat.pow_lt_pow_iff_right (by decide : 1 < 2)).1 (by omega)
  omega

theorem ilog2_mul_pow (n k : Nat) (h0 : n ≠ 0) : ilog2 (n * 2 ^ k) = ilog2 n + k := by
  obtain ⟨h1, h2⟩ := ilog2_spec n h0
  apply ilog2_eq_of
  · rw [Nat.pow_add]; exact Nat.mul_le_mul_right _ h1
  · rw [show ilog2 n + k + 1 = (ilog2 n + 1) + k by omega, Nat.pow_add]
    exact Nat.mul_lt_mul_of_pos_right h2 (Nat.pow_pos (by decide))

theorem roundHalfEven_mul (k d : Nat) (hd : 0 < d) : roundHalfEven (k * d) d = k := by
  simp [roundHalfEven, Nat.mul_mod_left, Nat.mul_div_cancel _ hd, hd]

theorem roundHalfEven_mono {a b d : Nat} (hd : 0 < d) (h : a ≤ b) :
    roundHalfEven a d ≤ roundHalfEven b d := by
  have hq : a / d ≤ b / d := Nat.div_le_div_right h
  have ha := Nat.div_add_mod a d
  have hb := Nat.div_add_mod b d
  have hra := Nat.mod_lt a hd
  have hrb := Nat.mod_lt b hd
  rcases Nat.lt_or_ge (a / d) (b / d) with hlt | hge
  · have h1 : roundHalfEven a d ≤ a / d + 1 := by
      unfold roundHalfEven; split_ifs <;> omega
    have h2 : b / d ≤ roundHalfEven b d := by
      unfold roundHalfEven; split_ifs <;> omega
    omega
  · have heq : a / d = b / d := by omega
    have hr : a % d ≤ b % d := by
      rw [heq] at ha
      have : d * (b / d) + a % d ≤ d * (b / d) + b % d := by omega
      omega
    unfold roundHalfEven
    rw [heq]
    split_ifs <;> omega

theorem roundHalfEven_scale (c n d : Nat) (hc : 0 < c) :
    roundHalfEven (n * c) (d * c) = roundHalfEven n d := by
  have h1 : n * c / (d * c) = n / d := Nat.mul_div_mul_right n d hc
  have h2 : n * c % (d * c) = n % d * c := by
    rw [Nat.mul_comm n c, Nat.mul_comm d c, Nat.mul_mod_mul_left, Nat.mul_comm]
  unfold roundHalfEven
  rw [h1, h2]
  have e1 : (2 * (n % d * c) < d * c) ↔ (2 * (n % d) < d) := by
    rw [← Nat.mul_assoc]; exact Nat.mul_lt_mul_right hc
  have e2 : (d * c < 2 * (n % d * c)) ↔ (d < 2 * (n % d)) := by
    rw [← Nat.mul_assoc]; exact Nat.mul_lt_mul_right hc
  simp only [e1, e2]

theorem two_pow_pos (k : Nat) : 0 < 2 ^ k := Nat.pow_pos (by decide)

theorem roundTo53_bounds (n : Nat) (h0 : n ≠ 0) :
    2 ^ ilog2 n ≤ roundTo53 n ∧ roundTo53 n ≤ 2 ^ (ilog2 n + 1) := by
  obtain ⟨h1, h2⟩ := ilog2_spec n h0
  unfold roundTo53
  split
  · exact ⟨h1, Nat.le_of_lt h2⟩
  · rename_i he
    have hd := two_pow_pos (ilog2 n - 52)
    have e1 : 2 ^ ilog2 n = 2 ^ 52 * 2 ^ (ilog2 n - 52) := by
      rw [← Nat.pow_add]; congr 1; omega
    have e2 : 2 ^ (ilog2 n + 1) = 2 ^ 53 * 2 ^ (ilog2 n - 52) := by
      rw [← Nat.pow_add]; congr 1; omega
    constructor
    · rw [e1]
      apply Nat.mul_le_mul_right
      have := roundHalfEven_mono hd (e1 ▸ h1)
      rwa [roundHalfEven_mul _ _ hd] at this
    · rw [e2]
      apply Nat.mul_le_mul_right
      have := roundHalfEven_mono hd (e2 ▸ Nat.le_of_lt h2)
      rwa [roundHalfEven_mul _ _ hd] at this

theorem roundTo53_eq_zero (n : Nat) : roundTo53 n = 0 ↔ n = 0 := by
  constructor
  · intro h
    by_contra h0
    have := (roundTo53_bounds n h0).1
    have := two_pow_pos (ilog2 n)
    omega
  · rintro rfl; decide

theorem roundTo53_mono {a b : Nat} (h : a ≤ b) : roundTo53 a ≤ roundTo53 b := by
  rcases Nat.eq_zero_or_pos a with rfl | ha
  · have : roundTo53 0 = 0 := by decide
    omega
  have ha0 : a ≠ 0 := by omega
  have hb0 : b ≠ 0 := by omega
  have he := ilog2_mono ha0 h
  rcases Nat.lt_or_ge (ilog2 a) (ilog2 b) with hlt | hge
  · have h1 := (roundTo53_bounds a ha0).2
    have h2 := (roundTo53_bounds b hb0).1
    have h3 : 2 ^ (ilog2 a + 1) ≤ 2 ^ ilog2 b := Nat.pow_le_pow_right (by decide) hlt
    omega
  · have heq : ilog2 a = ilog2 b := by omega
    unfold roundTo53
    rw [heq]
    split
    · exact h
    · exact Nat.mul_le_mul_right _ (roundHalfEven_mono (two_pow_pos _) h)

theorem roundTo53_mul_pow (n k : Nat) : roundTo53 (n * 2 ^ k) = roundTo53 n * 2 ^ k := by
  rcases Nat.eq_zero_or_pos n with rfl | hn
  · have : roundTo53 0 = 0 := by decide
    simp [this]
  have hn0 : n ≠ 0 := by omega
  have he := ilog2_mul_pow n k hn0
  unfold roundTo53
  rw [he]
  by_cases h1 : ilog2 n + k ≤ 52
  · have h2 : ilog2 n ≤ 52 := by omega
    simp [h1, h2]
  · by_cases h2 : ilog2 n ≤ 52
    · simp only [h1, h2, if_true, if_false]
      have e : n * 2 ^ k = n * 2 ^ (52 - ilog2 n) * 2 ^ (ilog2 n + k - 52) := by
        rw [Nat.mul_assoc, ← Nat.pow_add]; congr 2; omega
      rw [e, roundHalfEven_mul _ _ (two_pow_pos _)]
    · simp only [h1, h2, if_false]
      have e : 2 ^ (ilog2 n + k - 52) = 2 ^ (ilog2 n - 52) * 2 ^ k := by
        rw [← Nat.pow_add]; congr 1; omega
      rw [e, roundHalfEven_scale _ _ _ (two_pow_pos _), Nat.mul_assoc]

theorem divDouble_spec (a b : Nat) (ha : a ≠ 0) (hb : b ≠ 0) (h : ilog2 a ≤ 52 + ilog2 b) :
    b * 2 ^ 52 ≤ a * 2 ^ (divDouble a b).shift ∧ a * 2 ^ (divDouble a b).shift < b * 2 ^ 53 ∧
      (divDouble a b).num = roundHalfEven (a * 2 ^ (divDouble a b).shift) b := by
  obtain ⟨a1, a2⟩ := ilog2_spec a ha
  obtain ⟨b1, b2⟩ := ilog2_spec b hb
  have key : 2 ^ (ilog2 a + 1) * 2 ^ (52 + ilog2 b - ilog2 a) = 2 ^ ilog2 b * 2 ^ 53 := by
    rw [← Nat.pow_add, ← Nat.pow_add]; congr 1; omega
  have key2 : 2 ^ ilog2 a * 2 ^ (52 + ilog2 b - ilog2 a + 1) = 2 ^ (ilog2 b + 1) * 2 ^ 52 := by
    rw [← Nat.pow_add, ← Nat.pow_add]; congr 1; omega
  have hp := two_pow_pos (52 + ilog2 b - ilog2 a)
  unfold divDouble
  simp only [h, if_true]
  split
  · rename_i hc
    refine ⟨hc, ?_, rfl⟩
    calc a * 2 ^ (52 + ilog2 b - ilog2 a)
        < 2 ^ (ilog2 a + 1) * 2 ^ (52 + ilog2 b - ilog2 a) := Nat.mul_lt_mul_of_pos_right a2 hp
      _ = 2 ^ ilog2 b * 2 ^ 53 := key
      _ ≤ b * 2 ^ 53 := Nat.mul_le_mul_right _ b1
  · rename_i hc
    refine ⟨?_, ?_, rfl⟩
    · calc b * 2 ^ 52 ≤ 2 ^ (ilog2 b + 1) * 2 ^ 52 := Nat.mul_le_mul_right _ (Nat.le_of_lt b2)
        _ = 2 ^ ilog2 a * 2 ^ (52 + ilog2 b - ilog2 a + 1) := key2.symm
        _ ≤ a * 2 ^ (52 + ilog2 b - ilog2 a + 1) := Nat.mul_le_mul_right _ a1
    · rw [Nat.pow_succ]
      have : a * (2 ^ (52 + ilog2 b - ilog2 a) * 2) = 2 * (a * 2 ^ (52 + ilog2 b - ilog2 a)) := by
        ring
      omega

theorem divDouble_num_bounds (a b : Nat) (ha : a ≠ 0) (hb : b ≠ 0)
    (h : ilog2 a ≤ 52 + ilog2 b) :
    2 ^ 52 ≤ (divDouble a b).num ∧ (divDouble a b).num ≤ 2 ^ 53 := by
  obtain ⟨h1, h2, h3⟩ := divDouble_spec a b ha hb h
  have hb' : 0 < b := by omega
  rw [h3]
  constructor
  · have := roundHalfEven_mono hb' (Nat.mul_comm b _ ▸ h1)
    rwa [roundHalfEven_mul _ _ hb'] at this
  · have := roundHalfEven_mono hb' (Nat.mul_comm b _ ▸ Nat.le_of_lt h2)
    rwa [roundHalfEven_mul _ _ hb'] at this

theorem divDouble_mono (a a' b : Nat) (ha : a ≠ 0) (hb : b ≠ 0) (haa : a ≤ a')
    (h' : ilog2 a' ≤ 52 + ilog2 b) : (divDouble a b).le (divDouble a' b) := by
  have ha' : a' ≠ 0 := by omega
  have h : ilog2 a ≤ 52 + ilog2 b := Nat.le_trans (ilog2_mono ha haa) h'
  obtain ⟨s1, s2, s3⟩ := divDouble_spec a b ha hb h
  obtain ⟨t1, t2, t3⟩ := divDouble_spec a' b ha' hb h'
  obtain ⟨m1, m2⟩ := divDouble_num_bounds a b ha hb h
  obtain ⟨n1, n2⟩ := divDouble_num_bounds a' b ha' hb h'
  unfold Dyadic.le
  generalize (divDouble a b).shift = u at *
  generalize (divDouble a' b).shift = u' at *
  generalize (divDouble a b).num = m at *
  generalize (divDouble a' b).num = m' at *
  have hb' : 0 < b := by omega
  have huu : u' ≤ u := by
    by_contra hc
    have hle : u + 1 ≤ u' := by omega
    have h1 : a * 2 ^ (u + 1) ≤ a' * 2 ^ u' :=
      Nat.mul_le_mul haa (Nat.pow_le_pow_right (by decide) hle)
    rw [Nat.pow_succ] at h1
    have : a * (2 ^ u * 2) = 2 * (a * 2 ^ u) := by ring
    omega
  rcases Nat.lt_or_ge u' u with hlt | hge
  · calc m * 2 ^ u' ≤ 2 ^ 53 * 2 ^ u' := Nat.mul_le_mul_right _ m2
      _ = 2 ^ 52 * 2 ^ (u' + 1) := by rw [Nat.pow_succ]; ring
      _ ≤ 2 ^ 52 * 2 ^ u := Nat.mul_le_mul_left _ (Nat.pow_le_pow_right (by decide) hlt)
      _ ≤ m' * 2 ^ u := Nat.mul_le_mul_right _ n1
  · have heq : u' = u := by omega
    subst heq
    apply Nat.mul_le_mul_right
    rw [s3, t3]
    exact roundHalfEven_mono hb' (Nat.mul_le_mul_right _ haa)

theorem mul90_mono {x y : Dyadic} (h : x.le y) : (mul90 x).le (mul90 y) := by
  unfold Dyadic.le at *
  simp only [mul90]
  rw [← roundTo53_mul_pow, ← roundTo53_mul_pow]
  apply roundTo53_mono
  calc x.num * 90 * 2 ^ y.shift = x.num * 2 ^ y.shift * 90 := by ring
    _ ≤ y.num * 2 ^ x.shift * 90 := Nat.mul_le_mul_right _ h
    _ = y.num * 90 * 2 ^ x.shift := by ring

theorem mathRound_mono {x y : Dyadic} (h : x.le y) : mathRound x ≤ mathRound y := by
  unfold Dyadic.le at h
  unfold mathRound
  rw [Nat.le_div_iff_mul_le (two_pow_pos _)]
  have h1 := Nat.div_mul_le_self (2 * x.num + 2 ^ x.shift) (2 ^ (x.shift + 1))
  generalize (2 * x.num + 2 ^ x.shift) / 2 ^ (x.shift + 1) = q at *
  have hx := two_pow_pos x.shift
  apply Nat.le_of_mul_le_mul_right _ hx
  calc q * 2 ^ (y.shift + 1) * 2 ^ x.shift
      = q * 2 ^ (x.shift + 1) * 2 ^ y.shift := by rw [Nat.pow_succ, Nat.pow_succ]; ring
    _ ≤ (2 * x.num + 2 ^ x.shift) * 2 ^ y.shift := Nat.mul_le_mul_right _ h1
    _ = 2 * (x.num * 2 ^ y.shift) + 2 ^ x.shift * 2 ^ y.shift := by ring
    _ ≤ 2 * (y.num * 2 ^ x.shift) + 2 ^ x.shift * 2 ^ y.shift := by omega
    _ = (2 * y.num + 2 ^ y.shift) * 2 ^ x.shift := by ring

theorem uploadPercent_of_pos (l t : Nat) (hl : l ≠ 0) (ht : t ≠ 0) :
    uploadPercent l t =
      .whole (mathRound (mul90 (divDouble (roundTo53 l) (roundTo53 t)))) := by
  have h1 : roundTo53 l ≠ 0 := fun h => hl ((roundTo53_eq_zero l).1 h)
  have h2 : roundTo53 t ≠ 0 := fun h => ht ((roundTo53_eq_zero t).1 h)
  simp [uploadPercent, h1, h2]

theorem uploadPercent_zero (t : Nat) (ht : t ≠ 0) : uploadPercent 0 t = .whole 0 := by
  have h2 : roundTo53 t ≠ 0 := fun h => ht ((roundTo53_eq_zero t).1 h)
  have h1 : roundTo53 0 = 0 := by decide
  simp [uploadPercent, h1, h2]

theorem divDouble_self (a : Nat) (ha : a ≠ 0) : divDouble a a = ⟨2 ^ 52, 52⟩ := by
  have h1 : ilog2 a ≤ 52 + ilog2 a := by omega
  have h2 : 52 + ilog2 a - ilog2 a = 52 := by omega
  have h3 : a * 2 ^ 52 = 2 ^ 52 * a := Nat.mul_comm _ _
  unfold divDouble
  simp only [h1, h2, if_true, Nat.le_refl]
  rw [h3, roundHalfEven_mul _ _ (by omega)]

theorem divDouble_half (a : Nat) (ha : a ≠ 0) : divDouble a (a * 2 ^ 1) = ⟨2 ^ 52, 53⟩ := by
  have he := ilog2_mul_pow a 1 ha
  have h1 : ilog2 a ≤ 52 + (ilog2 a + 1) := by omega
  have h2 : 52 + (ilog2 a + 1) - ilog2 a = 53 := by omega
  have h3 : a * 2 ^ 53 = 2 ^ 52 * (a * 2 ^ 1) := by ring
  have h4 : a * 2 ^ 1 * 2 ^ 52 ≤ a * 2 ^ 53 := by rw [h3]; exact Nat.le_of_eq (Nat.mul_comm _ _)
  unfold divDouble
  simp only [he, h1, h2, h4, if_true]
  rw [h3, roundHalfEven_mul _ _ (by omega)]

theorem uploadPercent_full (t : Nat) (ht : t ≠ 0) : uploadPercent t t = .whole 90 := by
  have h2 : roundTo53 t ≠ 0 := fun h => ht ((roundTo53_eq_zero t).1 h)
  rw [uploadPercent_of_pos t t ht ht, divDouble_self _ h2]
  decide

theorem uploadPercent_half (n : Nat) (hn : n ≠ 0) : uploadPercent n (2 * n) = .whole 45 := by
  have h2 : roundTo53 n ≠ 0 := fun h => hn ((roundTo53_eq_zero n).1 h)
  have e : 2 * n = n * 2 ^ 1 := by ring
  rw [uploadPercent_of_pos n (2 * n) hn (by omega), e, roundTo53_mul_pow, divDouble_half _ h2]
  decide

theorem uploadPercent_mono_aux (l l' t : Nat) (hl : l ≠ 0) (h1 : l ≤ l') (h2 : l' ≤ t) :
    mathRound (mul90 (divDouble (roundTo53 l) (roundTo53 t))) ≤
      mathRound (mul90 (divDouble (roundTo53 l') (roundTo53 t))) := by
  have hL : roundTo53 l ≠ 0 := fun h => hl ((roundTo53_eq_zero l).1 h)
  have hL' : roundTo53 l' ≠ 0 := fun h => by
    have := (roundTo53_eq_zero l').1 h
    omega
  have hT : roundTo53 t ≠ 0 := fun h => by
    have := (roundTo53_eq_zero t).1 h
    omega
  have hle : ilog2 (roundTo53 l') ≤ 52 + ilog2 (roundTo53 t) :=
    Nat.le_trans (ilog2_mono hL' (roundTo53_mono h2)) (Nat.le_add_left _ _)
  exact mathRound_mono (mul90_mono (divDouble_mono _ _ _ hL hT (roundTo53_mono h1) hle))

theorem roundHalfEven_err (n d : Nat) (hd : 0 < d) :
    2 * (roundHalfEven n d * d) ≤ 2 * n + d ∧ 2 * n ≤ 2 * (roundHalfEven n d * d) + d := by
  have hm := Nat.div_add_mod n d
  have hr := Nat.mod_lt n hd
  have e1 : (n / d + 1) * d = d * (n / d) + d := by ring
  have e2 : n / d * d = d * (n / d) := Nat.mul_comm _ _
  unfold roundHalfEven
  split_ifs <;> simp only [e1, e2] <;> omega

theorem roundTo53_err (n : Nat) (h : n < 2 ^ 60) :
    2 * roundTo53 n ≤ 2 * n + 128 ∧ 2 * n ≤ 2 * roundTo53 n + 128 := by
  unfold roundTo53
  split
  · omega
  · rename_i he
    have h0 : n ≠ 0 := by
      rintro rfl
      exact he (by decide)
    obtain ⟨h1, _⟩ := ilog2_spec n h0
    have h3 : ilog2 n < 60 := (Nat.pow_lt_pow_iff_right (by decide : 1 < 2)).1 (by omega)
    have hd : 2 ^ (ilog2 n - 52) ≤ 2 ^ 7 := Nat.pow_le_pow_right (by decide) (by omega)
    obtain ⟨e1, e2⟩ := roundHalfEven_err n (2 ^ (ilog2 n - 52)) (two_pow_pos _)
    omega

theorem roundTo53_exact (n : Nat) (h : n < 2 ^ 53) : roundTo53 n = n := by
  unfold roundTo53
  rcases Nat.eq_zero_or_pos n with rfl | hn
  · decide
  · obtain ⟨h1, _⟩ := ilog2_spec n (by omega)
    have h3 : ilog2 n < 53 := (Nat.pow_lt_pow_iff_right (by decide : 1 < 2)).1 (by omega)
    have : ilog2 n ≤ 52 := by omega
    simp [this]

theorem uploadPercent_near_spec (l t : Nat) (hl : l ≠ 0) (hlt : l ≤ t) (ht : t < 2 ^ 53) :
    mathRound (mul90 (divDouble l t)) ≤ specPercent l t + 1 ∧
      specPercent l t ≤ mathRound (mul90 (divDouble l t)) + 1 := by
  have ht0 : t ≠ 0 := by omega
  have hle : ilog2 l ≤ 52 + ilog2 t := Nat.le_trans (ilog2_mono hl hlt) (Nat.le_add_left _ _)
  obtain ⟨s1, s2, s3⟩ := divDouble_spec l t hl ht0 hle
  obtain ⟨m1, m2⟩ := divDouble_num_bounds l t hl ht0 hle
  have hu : 52 ≤ (divDouble l t).shift := by
    by_contra hc
    have h1 : 2 ^ (divDouble l t).shift < 2 ^ 52 :=
      Nat.pow_lt_pow_right (by decide) (by omega)
    have h2 : l * 2 ^ (divDouble l t).shift < l * 2 ^ 52 :=
      Nat.mul_lt_mul_of_pos_left h1 (by omega)
    have h3 : l * 2 ^ 52 ≤ t * 2 ^ 52 := Nat.mul_le_mul_right _ hlt
    omega
  have hP : 2 ^ 52 ≤ 2 ^ (divDouble l t).shift := Nat.pow_le_pow_right (by decide) hu
  obtain ⟨f3, f3'⟩ := roundHalfEven_err (l * 2 ^ (divDouble l t).shift) t (by omega)
  rw [← s3] at f3 f3'
  obtain ⟨f4, f4'⟩ := roundTo53_err ((divDouble l t).num * 90) (by omega)
  unfold mathRound specPercent
  simp only [mul90]
  rw [Nat.pow_succ]
  generalize (divDouble l t).shift = u at *
  generalize (divDouble l t).num = m at *
  generalize roundTo53 (m * 90) = N at *
  generalize 2 ^ u = P at *
  have hP0 : 0 < P := by omega
  have f1 := Nat.div_mul_le_self (2 * N + P) (P * 2)
  have f1' := Nat.lt_div_mul_add (a := 2 * N + P) (b := P * 2) (by omega)
  have f2 := Nat.div_mul_le_self (2 * (90 * l) + t) (2 * t)
  have f2' := Nat.lt_div_mul_add (a := 2 * (90 * l) + t) (b := 2 * t) (by omega)
  generalize (2 * N + P) / (P * 2) = p at *
  generalize (2 * (90 * l) + t) / (2 * t) = q at *
  constructor
  · by_contra hc
    have hpq : q + 2 ≤ p := by omega
    have k1 : p * (P * 2) * t ≤ (2 * N + P) * t := Nat.mul_le_mul_right _ f1
    have k2 : (2 * (90 * l) + t) * P < (q * (2 * t) + 2 * t) * P :=
      Nat.mul_lt_mul_of_pos_right f2' hP0
    have k3 : (q + 2) * (P * 2 * t) ≤ p * (P * 2 * t) := Nat.mul_le_mul_right _ hpq
    have k4 : 2 ^ 52 * t ≤ P * t := Nat.mul_le_mul_right _ hP
    nlinarith
  · by_contra hc
    have hpq : p + 2 ≤ q := by omega
    have k1 : (2 * N + P) * t < (p * (P * 2) + P * 2) * t :=
      Nat.mul_lt_mul_of_pos_right f1' (by omega)
    have k2 : q * (2 * t) * P ≤ (2 * (90 * l) + t) * P := Nat.mul_le_mul_right _ f2
    have k3 : (p + 2) * (2 * t * P) ≤ q * (2 * t * P) := Nat.mul_le_mul_right _ hpq
    have k4 : 2 ^ 52 * t ≤ P * t := Nat.mul_le_mul_right _ hP
    nlinarith

/-- For totals up to `2 ^ 44` the rounding errors of the quotient and of the
product stay below the distance of `90 * l / t` from the nearest half, unless
that distance is zero: the displayed number is `specPercent` off the exact
halves, and `specPercent` or one below at them. -/
theorem uploadPercent_exact_spec (l t : Nat) (hl : l ≠ 0) (hlt : l ≤ t) (ht : t ≤ 2 ^ 44) :
    mathRound (mul90 (divDouble l t)) ≤ specPercent l t ∧
      ((2 * (90 * l) + t) % (2 * t) ≠ 0 →
        specPercent l t ≤ mathRound (mul90 (divDouble l t))) := by
  have ht0 : t ≠ 0 := by omega
  have hle : ilog2 l ≤ 52 + ilog2 t := Nat.le_trans (ilog2_mono hl hlt) (Nat.le_add_left _ _)
  obtain ⟨s1, s2, s3⟩ := divDouble_spec l t hl ht0 hle
  obtain ⟨m1, m2⟩ := divDouble_num_bounds l t hl ht0 hle
  have hu : 52 ≤ (divDouble l t).shift := by
    by_contra hc
    have h1 : 2 ^ (divDouble l t).shift < 2 ^ 52 :=
      Nat.pow_lt_pow_right (by decide) (by omega)
    have h2 : l * 2 ^ (divDouble l t).shift < l * 2 ^ 52 :=
      Nat.mul_lt_mul_of_pos_left h1 (by omega)
    have h3 : l * 2 ^ 52 ≤ t * 2 ^ 52 := Nat.mul_le_mul_right _ hlt
    omega
  have hP : 2 ^ 52 ≤ 2 ^ (divDouble l t).shift := Nat.pow_le_pow_right (by decide) hu
  obtain ⟨f3, f3'⟩ := roundHalfEven_err (l * 2 ^ (divDouble l t).shift) t (by omega)
  rw [← s3] at f3 f3'
  obtain ⟨f4, f4'⟩ := roundTo53_err ((divDouble l t).num * 90) (by omega)
  have hmod := Nat.div_add_mod (2 * (90 * l) + t) (2 * t)
  unfold mathRound specPercent
  simp only [mul90]
  rw [Nat.pow_succ]
  generalize (divDouble l t).shift = u at *
  generalize (divDouble l t).num = m at *
  generalize roundTo53 (m * 90) = N at *
  generalize 2 ^ u = P at *
  have hP0 : 0 < P := by omega
  have hPt : 218 * t < P := by omega
  have f1 := Nat.div_mul_le_self (2 * N + P) (P * 2)
  have f1' := Nat.lt_div_mul_add (a := 2 * N + P) (b := P * 2) (by omega)
  have f2 := Nat.div_mul_le_self (2 * (90 * l) + t) (2 * t)
  have f2' := Nat.lt_div_mul_add (a := 2 * (90 * l) + t) (b := 2 * t) (by omega)
  generalize (2 * N + P) / (P * 2) = p at *
  generalize (2 * (90 * l) + t) / (2 * t) = q at *
  have k5 : 2 * N * t ≤ (2 * (m * 90) + 128) * t := Nat.mul_le_mul_right _ f4
  have k5' : 2 * (m * 90) * t ≤ (2 * N + 128) * t := Nat.mul_le_mul_right _ f4'
  constructor
  · by_contra hc
    have hpq : q + 1 ≤ p := by omega
    have k1 : p * (P * 2) * t ≤ (2 * N + P) * t := Nat.mul_le_mul_right _ f1
    have k2 : (2 * (90 * l) + t + 1) * P ≤ (q * (2 * t) + 2 * t) * P :=
      Nat.mul_le_mul_right _ f2'
    have k3 : (q + 1) * (P * 2 * t) ≤ p * (P * 2 * t) := Nat.mul_le_mul_right _ hpq
    linarith only [k1, k2, k3, k5, f3, hPt]
  · intro hne
    have hr : q * (2 * t) + 1 ≤ 2 * (90 * l) + t := by
      have e : 2 * t * q = q * (2 * t) := Nat.mul_comm _ _
      omega
    by_contra hc
    have hpq : p + 1 ≤ q := by omega
    have k1 : (2 * N + P) * t < (p * (P * 2) + P * 2) * t :=
      Nat.mul_lt_mul_of_pos_right f1' (by omega)
    have k2 : (q * (2 * t) + 1) * P ≤ (2 * (90 * l) + t) * P := Nat.mul_le_mul_right _ hr
    have k3 : (p + 1) * (2 * t * P) ≤ q * (2 * t * P) := Nat.mul_le_mul_right _ hpq
    linarith only [k1, k2, k3, k5', f3', hPt]

/-! ## The displayed percentage -/

theorem uploadPercent_eq_whole (l t : Nat) (ht : t ≠ 0) :
    uploadPercent l t = .whole (wholePercent l t) := by
  unfold wholePercent
  split
  · rename_i h
    rw [h]; exact uploadPercent_zero t ht
  · rename_i h
    exact uploadPercent_of_pos l t h ht

theorem wholePercent_mono (l l' t : Nat) (h1 : l ≤ l') (h2 : l' ≤ t) :
    wholePercent l t ≤ wholePercent l' t := by
  unfold wholePercent
  split
  · exact Nat.zero_le _
  · rename_i h
    have h' : ¬ l' = 0 := by omega
    simp only [h', if_false]
    exact uploadPercent_mono_aux l l' t h h1 h2

theorem wholePercent_full (t : Nat) (ht : t ≠ 0) : wholePercent t t = 90 := by
  have h1 := uploadPercent_eq_whole t t ht
  rw [uploadPercent_full t ht] at h1
  injection h1 with h
  exact h.symm

theorem wholePercent_near_spec (l t : Nat) (hlt : l ≤ t) (ht0 : t ≠ 0) (ht : t < 2 ^ 53) :
    wholePercent l t ≤ specPercent l t + 1 ∧ specPercent l t ≤ wholePercent l t + 1 := by
  unfold wholePercent
  split
  · rename_i h
    subst h
    have : specPercent 0 t = 0 := by
      unfold specPercent
      exact Nat.div_eq_of_lt (by omega)
    omega
  · rename_i h
    rw [roundTo53_exact l (by omega), roundTo53_exact t ht]
    exact uploadPercent_near_spec l t h hlt ht

theorem wholePercent_exact_spec (l t : Nat) (hlt : l ≤ t) (ht0 : t ≠ 0) (ht : t ≤ 2 ^ 44) :
    wholePercent l t ≤ specPercent l t ∧
      ((2 * (90 * l) + t) % (2 * t) ≠ 0 → wholePercent l t = specPercent l t) := by
  unfold wholePercent
  split
  · rename_i h
    subst h
    have : specPercent 0 t = 0 := by
      unfold specPercent
      exact Nat.div_eq_of_lt (by omega)
    omega
  · rename_i h
    rw [roundTo53_exact l (by omega), roundTo53_exact t (by omega)]
    obtain ⟨e1, e2⟩ := uploadPercent_exact_spec l t h hlt ht
    exact ⟨e1, fun hne => Nat.le_antisymm e1 (e2 hne)⟩

/-- C3, as the code has it: for a length-computable progress event with
`total > 0` and `loaded ≤ total` the page shows `Math.round` of the binary64
value of `(loaded / total) * 90`; that number is a whole number between 0 and
90 and does not decrease when `loaded` grows; for totals up to `2^44` it is
`round(90 * loaded / total)` unless `90 * loaded / total` lies exactly halfway
between two whole numbers, and then it is that rounding or one below; for
totals below `2^53` it is never more than one off; the ratios 0, 0.5 and 1
show 0%, 45% and 90%. -/
theorem uploadPercent_range (loaded loaded' total : Nat) (ht : 0 < total)
    (h1 : loaded ≤ loaded') (h2 : loaded' ≤ total) :
    ∃ p p' : Nat,
      uploadPercent loaded total = .whole p ∧ uploadPercent loaded' total = .whole p' ∧
      p ≤ p' ∧ p' ≤ 90 ∧
      (∀ page : Page,
        (onUploadProgress true loaded total page).progressPercent =
            page.progressPercent.map (fun _ => numToString p ++ "%") ∧
          (onUploadProgress true loaded total page).progressFill =
            page.progressFill.map (fun _ => numToString p ++ "%")) ∧
      (total ≤ 2 ^ 44 →
        ((2 * (90 * loaded) + total) % (2 * total) ≠ 0 → p = specPercent loaded total) ∧
          (p = specPercent loaded total ∨ p + 1 = specPercent loaded total)) ∧
      (total < 2 ^ 53 →
        p ≤ specPercent loaded total + 1 ∧ specPercent loaded total ≤ p + 1) ∧
      uploadPercent 0 total = .whole 0 ∧
      uploadPercent total (2 * total) = .whole 45 ∧
      uploadPercent total total = .whole 90 := by
  have ht0 : total ≠ 0 := by omega
  have e1 := uploadPercent_eq_whole loaded total ht0
  have h90 : wholePercent loaded' total ≤ 90 := by
    have := wholePercent_mono loaded' total total h2 (Nat.le_refl _)
    rw [wholePercent_full total ht0] at this
    exact this
  have hmono := wholePercent_mono _ _ _ h1 h2
  refine ⟨wholePercent loaded total, wholePercent loaded' total, e1,
    uploadPercent_eq_whole loaded' total ht0, hmono, h90, ?_, ?_, ?_,
    uploadPercent_zero total ht0, uploadPercent_half total ht0, uploadPercent_full total ht0⟩
  · intro page
    have hn : numberToString (wholePercent loaded total) =
        numToString (wholePercent loaded total) :=
      numberToString_of_lt _ (by omega)
    simp [onUploadProgress, setProgress, e1, Percent.toStr, hn]
  · intro hlt
    obtain ⟨a1, a2⟩ := wholePercent_exact_spec loaded total (Nat.le_trans h1 h2) ht0 hlt
    obtain ⟨_, b2⟩ := wholePercent_near_spec loaded total (Nat.le_trans h1 h2) ht0 (by omega)
    refine ⟨a2, ?_⟩
    omega
  · intro hlt
    exact wholePercent_near_spec loaded total (Nat.le_trans h1 h2) ht0 hlt

theorem uploadPercent_range_witness :
    ∃ p p' : Nat,
      uploadPercent 7 20 = .whole p ∧ uploadPercent 10 20 = .whole p' ∧
      p ≤ p' ∧ p' ≤ 90 ∧
      (∀ page : Page,
        (onUploadProgress true 7 20 page).progressPercent =
            page.progressPercent.map (fun _ => numToString p ++ "%") ∧
          (onUploadProgress true 7 20 page).progressFill =
            page.progressFill.map (fun _ => numToString p ++ "%")) ∧
      (20 ≤ 2 ^ 44 →
        ((2 * (90 * 7) + 20) % (2 * 20) ≠ 0 → p = specPercent 7 20) ∧
          (p = specPercent 7 20 ∨ p + 1 = specPercent 7 20)) ∧
      (20 < 2 ^ 53 → p ≤ specPercent 7 20 + 1 ∧ specPercent 7 20 ≤ p + 1) ∧
      uploadPercent 0 20 = .whole 0 ∧
      uploadPercent 20 (2 * 20) = .whole 45 ∧
      uploadPercent 20 20 = .whole 90 :=
  uploadPercent_range 7 10 20 (by decide) (by decide) (by decide)

/-- C3 as stated fails: 7 of 20 bytes is 31.5 percent points exactly, and the
page shows 31 where `round(90 * 7 / 20)` is 32; 13 of 180 is 6.5 and shows 6,
while 1 of 180 is 0.5 and shows 1, so no rule for halves gives the displayed
numbers.  Above `2^44` the displayed number can differ off the halves too:
41084483755172 of 44282677101383 bytes shows 84 where the rounding is 83. -/
theorem uploadPercent_not_exact :
    uploadPercent 7 20 = .whole 31 ∧ specPercent 7 20 = 32 ∧ 2 * (90 * 7) = 63 * 20 ∧
      uploadPercent 13 180 = .whole 6 ∧ 2 * (90 * 13) = 13 * 180 ∧
      uploadPercent 1 180 = .whole 1 ∧ 2 * (90 * 1) = 1 * 180 ∧
      uploadPercent 41084483755172 44282677101383 = .whole 84 ∧
      specPercent 41084483755172 44282677101383 = 83 ∧
      (2 * (90 * 41084483755172) + 44282677101383) % (2 * 44282677101383) ≠ 0 := by
  decide

/-! ## The size formatter -/

/-- No decimal digit is the point. -/
theorem digitChar_ne_point (d : Nat) (h : d < 10) : Nat.digitChar d ≠ '.' := by
  interval_cases d <;> decide

theorem toDigitsCore_no_point (f : Nat) : ∀ (n : Nat) (c : Char),
    c ∈ Nat.toDigitsCore 10 f n [] → c ≠ '.' := by
  induction f with
  | zero => intro n c h; simp [Nat.toDigitsCore] at h
  | succ f ih =>
    intro n c h
    simp only [Nat.toDigitsCore] at h
    split at h
    · simp only [List.mem_singleton] at h
      rw [h]; exact digitChar_ne_point _ (Nat.mod_lt _ (by decide))
    · rw [toDigitsCore_append] at h
      rcases List.mem_append.1 h with h | h
      · exact ih _ _ h
      · simp only [List.mem_singleton] at h
        rw [h]; exact digitChar_ne_point _ (Nat.mod_lt _ (by decide))

theorem numToString_no_point (n : Nat) (c : Char) (h : c ∈ (numToString n).data) : c ≠ '.' := by
  simp only [numToString, Nat.repr, Nat.toDigits, List.asString] at h
  exact toDigitsCore_no_point _ _ _ h

theorem takeWhile_ne_point (l r : List Char) (h : ∀ c ∈ l, c ≠ '.') :
    (l ++ '.' :: r).takeWhile (fun c => c != '.') = l := by
  induction l with
  | nil => simp
  | cons a l ih =>
    have ha : a ≠ '.' := h a (List.mem_cons_self _ _)
    have := ih (fun c hc => h c (List.mem_cons_of_mem _ hc))
    simp [List.takeWhile_cons, ha, this]

theorem dropWhile_ne_point (l r : List Char) (h : ∀ c ∈ l, c ≠ '.') :
    (l ++ '.' :: r).dropWhile (fun c => c != '.') = '.' :: r := by
  induction l with
  | nil => simp
  | cons a l ih =>
    have ha : a ≠ '.' := h a (List.mem_cons_self _ _)
    have := ih (fun c hc => h c (List.mem_cons_of_mem _ hc))
    simp [List.dropWhile_cons, ha, this]

theorem numToString_digit (d : Nat) (h : d < 10) : (numToString d).data = [Nat.digitChar d] := by
  interval_cases d <;> rfl

/-- `parseFloat` reads back the tenths that `toFixed(1)` printed. -/
theorem parseFloatTenths_toFixed1 (num den : Nat) :
    parseFloatTenths (toFixed1 num den) = toFixedTenths num den := by
  have hd : toFixedTenths num den % 10 < 10 := Nat.mod_lt _ (by decide)
  simp only [parseFloatTenths, toFixed1, String.data_append]
  rw [List.append_assoc, List.singleton_append,
    takeWhile_ne_point _ _ (numToString_no_point _),
    dropWhile_ne_point _ _ (numToString_no_point _), numToString_digit _ hd]
  simp only [List.drop_succ_cons, List.drop_zero, List.take_succ_cons, List.take_zero]
  rw [decimalVal_numToString]
  have : decimalVal [Nat.digitChar (toFixedTenths num den % 10)] = toFixedTenths num den % 10 := by
    simp [decimalVal, digitVal_digitChar _ hd]
  rw [this]; omega

/-! ## Size texts -/

theorem formatFileSize_of_index (b i : Nat) (h1 : 1024 ^ i ≤ b) (h2 : b < 1024 ^ (i + 1)) :
    formatFileSize b =
      tenthsToString (toFixedTenths b (1024 ^ i)) ++ " " ++ sizes.getD i "undefined" := by
  have hb : b ≠ 0 := by
    have : 0 < 1024 ^ i := Nat.pow_pos (by decide)
    omega
  have hlog : floorLog 1024 b = i := floorLog_eq_of 1024 b i (by decide) h1 h2
  simp only [formatFileSize, hb, if_false, hlog, parseFloatTenths_toFixed1]

theorem toFixedTenths_nearest (num den : Nat) (hd : 0 < den) :
    2 * (toFixedTenths num den * den) ≤ 20 * num + den ∧
      20 * num < 2 * (toFixedTenths num den * den) + den := by
  unfold toFixedTenths
  have h1 := Nat.div_mul_le_self (20 * num + den) (2 * den)
  have h2 := Nat.lt_div_mul_add (a := 20 * num + den) (b := 2 * den) (by omega)
  have e : (20 * num + den) / (2 * den) * (2 * den) =
      2 * ((20 * num + den) / (2 * den) * den) := by ring
  omega

/-- C4: `formatFileSize(0)` is "0 Bytes"; for `1 ≤ b < 1024^4` the result is
`b / 1024^i` rounded to one decimal place (`n` tenths, a half going up), printed
without a trailing ".0", a space and the `i`-th unit, where `i` is the largest
exponent with `1024^i ≤ b`; 1024 gives "1 KB" and 1572864 gives "1.5 MB". -/
theorem formatFileSize_spec (b : Nat) (h1 : 1 ≤ b) (h2 : b < 1024 ^ 4) :
    formatFileSize 0 = "0 Bytes" ∧ formatFileSize 1024 = "1 KB" ∧
      formatFileSize 1572864 = "1.5 MB" ∧
      ∃ (i n : Nat) (unit : String),
        ["Bytes", "KB", "MB", "GB"][i]? = some unit ∧
        1024 ^ i ≤ b ∧ (∀ j : Nat, 1024 ^ j ≤ b → j ≤ i) ∧
        2 * (n * 1024 ^ i) ≤ 20 * b + 1024 ^ i ∧ 20 * b < 2 * (n * 1024 ^ i) + 1024 ^ i ∧
        formatFileSize b =
          (if n % 10 = 0 then numToString (n / 10)
            else numToString (n / 10) ++ "." ++ numToString (n % 10)) ++ " " ++ unit := by
  refine ⟨by decide, by decide, by decide, ?_⟩
  obtain ⟨s1, s2⟩ := floorLog_spec 1024 b (by decide) (by omega)
  have hi : floorLog 1024 b < 4 := (Nat.pow_lt_pow_iff_right (by decide : 1 < 1024)).1 (by omega)
  have hn := toFixedTenths_nearest b (1024 ^ floorLog 1024 b) (Nat.pow_pos (by decide))
  have hf := formatFileSize_of_index b (floorLog 1024 b) s1 s2
  refine ⟨floorLog 1024 b, toFixedTenths b (1024 ^ floorLog 1024 b),
    sizes.getD (floorLog 1024 b) "undefined", ?_, s1, ?_, hn.1, hn.2, hf⟩
  · generalize floorLog 1024 b = i at hi
    interval_cases i <;> rfl
  · intro j hj
    have : j < floorLog 1024 b + 1 :=
      (Nat.pow_lt_pow_iff_right (by decide : 1 < 1024)).1 (by omega)
    omega

theorem formatFileSize_spec_witness :
    ∃ (i n : Nat) (unit : String),
      ["Bytes", "KB", "MB", "GB"][i]? = some unit ∧
      1024 ^ i ≤ 1280 ∧ (∀ j : Nat, 1024 ^ j ≤ 1280 → j ≤ i) ∧
      2 * (n * 1024 ^ i) ≤ 20 * 1280 + 1024 ^ i ∧ 20 * 1280 < 2 * (n * 1024 ^ i) + 1024 ^ i ∧
      formatFileSize 1280 =
        (if n % 10 = 0 then numToString (n / 10)
          else numToString (n / 10) ++ "." ++ numToString (n % 10)) ++ " " ++ unit :=
  (formatFileSize_spec 1280 (by decide) (by decide)).2.2.2

/-! ## Timestamp labels -/

theorem padStart_seconds (s : Nat) (h : s < 60) :
    padStart 2 '0' (numToString s) = ⟨[Nat.digitChar (s / 10), Nat.digitChar (s % 10)]⟩ := by
  interval_cases s <;> rfl

theorem decimalVal_two_digits (s : Nat) (h : s < 60) :
    decimalVal [Nat.digitChar (s / 10), Nat.digitChar (s % 10)] = s := by
  have h1 := digitVal_digitChar (s / 10) (by omega)
  have h2 := digitVal_digitChar (s % 10) (by omega)
  simp only [decimalVal, List.foldl_cons, List.foldl_nil, h1, h2]
  omega

theorem frameSeconds_eq (t : Nat) (ht : t < 2 ^ 53) : frameSeconds t = t % 60 := by
  unfold frameSeconds
  rw [roundTo53_exact t ht]

/-- Below `2 ^ 53` the binary64 quotient by 60, rounded down, is the whole
quotient: the quotient has more than five binary places there, and `t / 60` is
at least a sixtieth away from the next whole number. -/
theorem frameMinutes_eq (t : Nat) (ht : t < 2 ^ 53) : frameMinutes t = t / 60 := by
  unfold frameMinutes
  rw [roundTo53_exact t ht]
  split
  · rename_i h0
    rw [h0]
  · rename_i h0
    have hle : ilog2 t ≤ 52 + ilog2 60 := by
      obtain ⟨h1, _⟩ := ilog2_spec t h0
      have h3 : ilog2 t < 53 := (Nat.pow_lt_pow_iff_right (by decide : 1 < 2)).1 (by omega)
      omega
    obtain ⟨s1, s2, s3⟩ := divDouble_spec t 60 h0 (by decide) hle
    unfold mathFloor
    generalize (divDouble t 60).shift = u at *
    generalize (divDouble t 60).num = m at *
    have hP : 30 < 2 ^ u := by
      by_contra hc
      have : t * 2 ^ u ≤ t * 30 := Nat.mul_le_mul_left _ (by omega)
      omega
    have hq : t / 60 * 2 ^ u * 60 ≤ t * 2 ^ u := by
      have := Nat.mul_le_mul_right (2 ^ u) (Nat.div_mul_le_self t 60)
      calc t / 60 * 2 ^ u * 60 = t / 60 * 60 * 2 ^ u := by ring
        _ ≤ t * 2 ^ u := this
    have lo : t / 60 * 2 ^ u ≤ m := by
      have := roundHalfEven_mono (by decide : 0 < 60) hq
      rw [roundHalfEven_mul _ _ (by decide)] at this
      rw [s3]
      exact this
    have hi : m < (t / 60 + 1) * 2 ^ u := by
      obtain ⟨e1, _⟩ := roundHalfEven_err (t * 2 ^ u) 60 (by decide)
      rw [← s3] at e1
      have hm := Nat.div_add_mod t 60
      have hr := Nat.mod_lt t (by decide : 0 < 60)
      have hT : t * 2 ^ u = 60 * (t / 60 * 2 ^ u) + t % 60 * 2 ^ u := by
        conv_lhs => rw [← hm]
        ring
      have hR : t % 60 * 2 ^ u ≤ 59 * 2 ^ u := Nat.mul_le_mul_right _ (by omega)
      have hS : (t / 60 + 1) * 2 ^ u = t / 60 * 2 ^ u + 2 ^ u := by ring
      rw [hS]
      generalize t / 60 * 2 ^ u = A at *
      generalize t % 60 * 2 ^ u = B at *
      generalize t * 2 ^ u = T at *
      generalize 2 ^ u = P at *
      omega
    exact Nat.div_eq_of_lt_le lo hi

theorem timeStr_of_lt (t : Nat) (ht : t < 2 ^ 53) :
    timeStr t =
      numToString (t / 60) ++ ":" ++
        String.mk [Nat.digitChar (t % 60 / 10), Nat.digitChar (t % 60 % 10)] := by
  have hs : t % 60 < 60 := Nat.mod_lt _ (by decide)
  have hm : t / 60 < 2 ^ 53 := Nat.lt_of_le_of_lt (Nat.div_le_self _ _) ht
  unfold timeStr
  rw [frameMinutes_eq t ht, frameSeconds_eq t ht, numberToString_of_lt _ hm,
    numberToString_of_lt _ (by omega), padStart_seconds _ hs]

theorem timeStr_data (t : Nat) (ht : t < 2 ^ 53) :
    (timeStr t).data =
      (numToString (t / 60)).data ++
        [':', Nat.digitChar (t % 60 / 10), Nat.digitChar (t % 60 % 10)] := by
  rw [timeStr_of_lt t ht]
  simp only [String.data_append, List.append_assoc]
  rfl

/-- C10, as the code has it: for a timestamp of `t` whole seconds below `2^53`
the label is the decimal of `t div 60`, a colon, and `t mod 60` as exactly two
digits (tens, units); the seconds part is below 60 and the label determines
`t` among such timestamps. -/
theorem timeStr_mmss (t : Nat) (ht : t < 2 ^ 53) :
    timeStr t =
        numToString (t / 60) ++ ":" ++
          String.mk [Nat.digitChar (t % 60 / 10), Nat.digitChar (t % 60 % 10)] ∧
      t % 60 < 60 ∧
      decimalVal [Nat.digitChar (t % 60 / 10), Nat.digitChar (t % 60 % 10)] = t % 60 ∧
      ∀ t' : Nat, t' < 2 ^ 53 → timeStr t' = timeStr t → t' = t := by
  have hs : t % 60 < 60 := Nat.mod_lt _ (by decide)
  refine ⟨timeStr_of_lt t ht, hs, decimalVal_two_digits _ hs, ?_⟩
  intro t' ht' h
  have hd := congrArg String.data h
  rw [timeStr_data t' ht', timeStr_data t ht] at hd
  obtain ⟨e1, e2⟩ := List.append_inj' hd rfl
  have hm : t' / 60 = t / 60 := numToString_injective (String.ext e1)
  have hs' : t' % 60 < 60 := Nat.mod_lt _ (by decide)
  have e3 : [Nat.digitChar (t' % 60 / 10), Nat.digitChar (t' % 60 % 10)] =
      [Nat.digitChar (t % 60 / 10), Nat.digitChar (t % 60 % 10)] := by
    simpa using e2
  have hv := congrArg decimalVal e3
  rw [decimalVal_two_digits _ hs', decimalVal_two_digits _ hs] at hv
  omega

theorem timeStr_mmss_witness :
    timeStr 75 = numToString (75 / 60) ++ ":" ++
        String.mk [Nat.digitChar (75 % 60 / 10), Nat.digitChar (75 % 60 % 10)] ∧
      timeStr 75 = "1:15" :=
  ⟨(timeStr_mmss 75 (by decide)).1, by decide⟩

/-- C10 as stated fails: 67619157161583776 is a whole number of seconds that
binary64 holds exactly; its quotient by 60 is rounded to 53 bits before
`Math.floor`, and the label shows 1126985952693063 minutes where `t div 60` is
1126985952693062. -/
theorem timeStr_large_timestamp :
    roundTo53 67619157161583776 = 67619157161583776 ∧
      timeStr 67619157161583776 = "1126985952693063:56" ∧
      numToString (67619157161583776 / 60) = "1126985952693062" ∧
      67619157161583776 % 60 = 56 := by
  decide

/-! ## The page -/

/-- C1: with no file in the video input, a submit event sends no request,
leaves the submit button and the progress bar untouched, and puts the error
result "must choose a video" into the result area. -/
theorem submit_without_video (eng : Engine) (form : FormInput) (p : Page)
    (hv : p.videoZone.files = []) :
    (step eng (.submit form) p).requests = p.requests ∧
    (step eng (.submit form) p).uploadsInFlight = p.uploadsInFlight ∧
    (step eng (.submit form) p).uncaught = p.uncaught ∧
    (step eng (.submit form) p).uploadBtnDisabled = p.uploadBtnDisabled ∧
    (step eng (.submit form) p).progressContainerDisplay = p.progressContainerDisplay ∧
    (step eng (.submit form) p).progressFill = p.progressFill ∧
    (step eng (.submit form) p).progressPercent = p.progressPercent ∧
    (step eng (.submit form) p).progressLabel = p.progressLabel ∧
    (step eng (.submit form) p).resultContainer =
      p.resultContainer.map
        (fun _ => ⟨"block", "<div class=\"result-error\">יש לבחור קובץ וידאו.</div>"⟩) := by
  have h : step eng (.submit form) p = showResult "error" "יש לבחור קובץ וידאו." p := by
    simp [step, onSubmit, hv]
  rw [h]
  unfold showResult
  cases hr : p.resultContainer with
  | none => simp [hr]
  | some area =>
    refine ⟨rfl, rfl, rfl, rfl, rfl, rfl, rfl, rfl, ?_⟩
    simp only [Option.map_some']
    congr 1

theorem submit_without_video_witness :
    (step Engine.v8 (.submit ⟨.blank, false⟩) Page.blank).requests = [] ∧
    (step Engine.v8 (.submit ⟨.blank, false⟩) Page.blank).uploadBtnDisabled = false ∧
    (step Engine.v8 (.submit ⟨.blank, false⟩) Page.blank).resultContainer =
      some ⟨"block", "<div class=\"result-error\">יש לבחור קובץ וידאו.</div>"⟩ :=
  have h := submit_without_video Engine.v8 ⟨.blank, false⟩ Page.blank rfl
  ⟨h.1, h.2.2.2.1, h.2.2.2.2.2.2.2.2⟩

/-- C8: for a drop zone set up with zone and input present, a drop carrying at
least one file and a change on an input holding at least one file call the
selection callback exactly once, with the first file; without files the
callback is not called; after a drop the input holds exactly the first file. -/
theorem setupDropZone_callback (z : DropZone) (files : List File) (h : 0 < files.length) :
    (setupDropZone true true (.drop files) z).2 = [files[0]] ∧
    (setupDropZone true true (.drop files) z).1.files = [files[0]] ∧
    (setupDropZone true true .change { z with files := files }).2 = [files[0]] ∧
    (setupDropZone true true (.drop []) z).2 = [] ∧
    (setupDropZone true true .change { z with files := [] }).2 = [] := by
  cases files with
  | nil => simp at h
  | cons f rest => simp [setupDropZone]

theorem setupDropZone_callback_witness :
    (setupDropZone true true (.drop [sampleVideo, sampleThumb]) ⟨true, [], 0⟩).2 = [sampleVideo] ∧
    (setupDropZone true true (.drop [sampleVideo, sampleThumb]) ⟨true, [], 0⟩).1.files =
      [sampleVideo] :=
  have h := setupDropZone_callback ⟨true, [], 0⟩ [sampleVideo, sampleThumb] (by decide)
  ⟨h.1, h.2.1⟩

theorem showResult_resultContainer (type html : String) (p : Page) :
    (showResult type html p).resultContainer =
      p.resultContainer.map
        (fun _ => ⟨"block", "<div class=\"result-" ++ type ++ "\">" ++ html ++ "</div>"⟩) := by
  unfold showResult
  cases hr : p.resultContainer <;> simp [hr]

theorem showResult_progress (type html : String) (p : Page) :
    (showResult type html p).progressFill = p.progressFill ∧
      (showResult type html p).progressPercent = p.progressPercent ∧
      (showResult type html p).uploadBtnDisabled = p.uploadBtnDisabled ∧
      (showResult type html p).uncaught = p.uncaught := by
  unfold showResult
  cases hr : p.resultContainer <;> simp

theorem submitCatch_fields (m : String) (p : Page) :
    (submitFinally (submitCatch m p)).resultContainer =
        p.resultContainer.map (fun _ => ⟨"block", errorHtml m⟩) ∧
      (submitFinally (submitCatch m p)).progressFill = p.progressFill.map (fun _ => "0%") ∧
      (submitFinally (submitCatch m p)).progressPercent = p.progressPercent.map (fun _ => "0%") ∧
      (submitFinally (submitCatch m p)).uploadBtnDisabled = false := by
  refine ⟨?_, ?_, ?_, rfl⟩
  · show (showResult _ _ (setProgress _ _ p)).resultContainer = _
    rw [showResult_resultContainer]
    rfl
  · show (showResult _ _ (setProgress _ _ p)).progressFill = _
    rw [(showResult_progress _ _ _).1]
    rfl
  · show (showResult _ _ (setProgress _ _ p)).progressPercent = _
    rw [(showResult_progress _ _ _).2.1]
    rfl

theorem step_uploadDone (eng : Engine) (f : XhrFinish) (p : Page) (hf : 0 < p.uploadsInFlight) :
    step eng (.uploadDone f) p =
      onUploadSettled eng (settle f) { p with uploadsInFlight := p.uploadsInFlight - 1 } := by
  have hf' : p.uploadsInFlight ≠ 0 := by omega
  simp [step, hf']

theorem errorHtml_contains (m : String) :
    contains (errorHtml m) "<div class=\"result-error\">" ∧ contains (errorHtml m) m := by
  unfold errorHtml
  constructor
  · exact contains_trans (contains_append_left _ _) (contains_append_left _ _)
  · exact contains_trans (contains_mid _ _ _) (contains_mid _ _ _)

/-- What the `catch` block assigns for a non-2xx `/upload` response: when the
body is not valid JSON, a `result-error` div whose markup holds the status code;
when the body is a JSON object with a non-empty `error` text, a `result-error`
div into whose markup that text is spliced as received; in both cases the
progress is set back to 0. -/
theorem upload_error_assigned (eng : Engine) (p : Page) (status : Nat)
    (hs : ¬ (200 ≤ status ∧ status < 300)) (hf : 0 < p.uploadsInFlight) :
    (∃ html : String,
      (step eng (.uploadDone (.load status none)) p).resultContainer =
          p.resultContainer.map (fun _ => ⟨"block", html⟩) ∧
        contains html "<div class=\"result-error\">" ∧
        contains html (numToString status) ∧
        (step eng (.uploadDone (.load status none)) p).progressFill =
          p.progressFill.map (fun _ => "0%") ∧
        (step eng (.uploadDone (.load status none)) p).progressPercent =
          p.progressPercent.map (fun _ => "0%")) ∧
    ∀ (err : UploadFields) (text : String), err.error = .str text → text ≠ "" →
      ∃ html : String,
        (step eng (.uploadDone (.load status (some (.value err)))) p).resultContainer =
            p.resultContainer.map (fun _ => ⟨"block", html⟩) ∧
          contains html "<div class=\"result-error\">" ∧
          contains html text ∧
          (step eng (.uploadDone (.load status (some (.value err)))) p).progressFill =
            p.progressFill.map (fun _ => "0%") ∧
          (step eng (.uploadDone (.load status (some (.value err)))) p).progressPercent =
            p.progressPercent.map (fun _ => "0%") := by
  constructor
  · have hset : settle (.load status none) = .rejected ("שגיאה " ++ numToString status) := by
      simp [settle, xhrOnload, hs]
    rw [step_uploadDone eng _ p hf, hset]
    have h := submitCatch_fields ("שגיאה " ++ numToString status)
      { p with uploadsInFlight := p.uploadsInFlight - 1 }
    exact ⟨errorHtml ("שגיאה " ++ numToString status), h.1, (errorHtml_contains _).1,
      contains_trans (errorHtml_contains _).2 (contains_append_right _ _), h.2.1, h.2.2.1⟩
  · intro err text he hne
    have hset : settle (.load status (some (.value err))) = .rejected text := by
      simp [settle, xhrOnload, hs, he, JsVal.truthy, JsVal.toStr, hne]
    rw [step_uploadDone eng _ p hf, hset]
    have h := submitCatch_fields text { p with uploadsInFlight := p.uploadsInFlight - 1 }
    exact ⟨errorHtml text, h.1, (errorHtml_contains _).1, (errorHtml_contains _).2, h.2.1, h.2.2.1⟩

/-- C5, where the code departs from it: a 400 response whose JSON body has the
error text `Quota <exceeded> & retry`.  The `catch` block splices the text
unescaped into the markup it assigns to the result area (`showResult`, line
302), so the element takes `<exceeded>` for a tag and `&` for the start of a
character reference, and the message it shows is not the error text.  The
progress is set back to 0 and the button is enabled again. -/
theorem upload_error_markup_unescaped :
    quotaError.error = .str "Quota <exceeded> & retry" ∧
      (step Engine.v8 (.uploadDone (.load 400 (some (.value quotaError))))
          uploadingPage).resultContainer =
        some ⟨"block",
          "<div class=\"result-error\"><h3>❌ שגיאה</h3><p>Quota <exceeded> & retry</p></div>"⟩ ∧
      (step Engine.v8 (.uploadDone (.load 400 (some (.value quotaError))))
          uploadingPage).progressFill = some "0%" ∧
      (step Engine.v8 (.uploadDone (.load 400 (some (.value quotaError))))
          uploadingPage).progressPercent = some "0%" ∧
      (step Engine.v8 (.uploadDone (.load 400 (some (.value quotaError))))
          uploadingPage).uploadBtnDisabled = false := by
  decide

theorem successHead_contains (response : UploadFields) :
    contains (successHead response)
        ("<a href=\"" ++ response.video_url.toStr ++ "\" target=\"_blank\">") ∧
      contains (successHead response) ("Video ID: " ++ response.video_id.toStr) := by
  have e1 : successHead response =
      "<h3>✅ הסרטון הועלה בהצלחה!</h3>\n                    <p>" ++
        ("<a href=\"" ++ response.video_url.toStr ++ "\" target=\"_blank\">") ++
        ("🔗 לצפייה בסרטון</a></p>\n                    " ++
          "<p style=\"font-size:0.85rem; color: var(--text-muted);\">Video ID: " ++
          response.video_id.toStr ++ "</p>") := by
    apply String.ext
    simp only [successHead, String.data_append, List.append_assoc]
    rfl
  have e2 : successHead response =
      ("<h3>✅ הסרטון הועלה בהצלחה!</h3>\n                    <p><a href=\"" ++
          response.video_url.toStr ++
          "\" target=\"_blank\">🔗 לצפייה בסרטון</a></p>\n                    " ++
          "<p style=\"font-size:0.85rem; color: var(--text-muted);\">") ++
        ("Video ID: " ++ response.video_id.toStr) ++ "</p>" := by
    apply String.ext
    simp only [successHead, String.data_append, List.append_assoc]
    rfl
  constructor
  · rw [e1]; exact contains_mid _ _ _
  · rw [e2]; exact contains_mid _ _ _

theorem thumbnailWarning_contains (response : UploadFields) :
    contains (thumbnailWarning response) "⚠️ תמונת תצוגה: " ∧
      contains (thumbnailWarning response) response.thumbnail_error.toStr := by
  have e1 : thumbnailWarning response =
      ("<p style=\"color: var(--yellow); font-size: 0.85rem; margin-top: 0.5rem;\">" ++
          "\n                        ") ++ "⚠️ תמונת תצוגה: " ++
        (response.thumbnail_error.toStr ++ "</p>") := by
    apply String.ext
    simp only [thumbnailWarning, String.data_append, List.append_assoc]
    rfl
  constructor
  · rw [e1]; exact contains_mid _ _ _
  · unfold thumbnailWarning; exact contains_mid _ _ _

theorem thumbnailWarning_ne_empty (response : UploadFields) :
    (thumbnailWarning response).data ≠ [] := by
  simp [thumbnailWarning, String.data_append]

theorem successHead_ne_with_warning (response : UploadFields) :
    successHead response ≠ successHead response ++ thumbnailWarning response := by
  intro h
  have h2 := congrArg String.data h
  rw [String.data_append] at h2
  exact thumbnailWarning_ne_empty response (List.self_eq_append_right.1 h2)

theorem warningSign_mem_successHead (response : UploadFields)
    (hu : '⚠' ∉ response.video_url.toStr.data) (hi : '⚠' ∉ response.video_id.toStr.data) :
    '⚠' ∉ (successHead response).data := by
  simp only [successHead, String.data_append, List.mem_append, not_or]
  refine ⟨⟨⟨⟨⟨by decide, hu⟩, by decide⟩, by decide⟩, hi⟩, by decide⟩

theorem warningSign_mem_thumbnailWarning (response : UploadFields) :
    '⚠' ∈ (thumbnailWarning response).data := by
  simp only [thumbnailWarning, String.data_append, List.mem_append]
  exact Or.inl (Or.inl (Or.inr (by decide)))

/-- C7, as the code has it: for a successful `/upload` response (`success`
true) the handler assigns to the result area a `result-success` div whose markup
holds the link with the video URL and the paragraph with the video id, each
spliced in as received; the warning paragraph is appended exactly when
`thumbnail_error` is truthy (for a text: non-empty) and then holds that text;
when neither the video URL nor the video id carries the warning sign, the
markup contains the sign exactly when `thumbnail_error` is truthy. -/
theorem upload_success_message (eng : Engine) (p : Page) (status : Nat)
    (response : UploadFields) (hs : 200 ≤ status ∧ status < 300) (hf : 0 < p.uploadsInFlight)
    (hok : response.success = .bool true) :
    (step eng (.uploadDone (.load status (some (.value response)))) p).resultContainer =
        p.resultContainer.map
          (fun _ =>
            ⟨"block", "<div class=\"result-success\">" ++ successMessage response ++ "</div>"⟩) ∧
      (step eng (.uploadDone (.load status (some (.value response)))) p).uploadBtnDisabled =
        false ∧
      contains (successMessage response)
        ("<a href=\"" ++ response.video_url.toStr ++ "\" target=\"_blank\">") ∧
      contains (successMessage response) ("Video ID: " ++ response.video_id.toStr) ∧
      (successMessage response = successHead response ++ thumbnailWarning response ↔
        response.thumbnail_error.truthy = true) ∧
      (response.thumbnail_error = .undefined → successMessage response = successHead response) ∧
      (∀ s : String, response.thumbnail_error = .str s →
        (successMessage response = successHead response ++ thumbnailWarning response ↔
            s ≠ "") ∧
          (s = "" → successMessage response = successHead response) ∧
          contains (thumbnailWarning response) "⚠️ תמונת תצוגה: " ∧
          contains (thumbnailWarning response) s) ∧
      ('⚠' ∉ response.video_url.toStr.data → '⚠' ∉ response.video_id.toStr.data →
        ('⚠' ∈ (successMessage response).data ↔ response.thumbnail_error.truthy = true)) := by
  have hset : settle (.load status (some (.value response))) = .resolved (.value response) := by
    simp [settle, xhrOnload, hs]
  have hc := successHead_contains response
  refine ⟨?_, ?_, ?_, ?_, ?_, ?_, ?_, ?_⟩
  · rw [step_uploadDone eng _ p hf, hset]
    simp only [onUploadSettled, hok, JsVal.truthy, if_true]
    show (showResult _ _ (setProgress _ _ _)).resultContainer = _
    rw [showResult_resultContainer]
    rfl
  · rw [step_uploadDone eng _ p hf, hset]
    rfl
  · unfold successMessage
    split
    · exact contains_trans (contains_append_left _ _) hc.1
    · exact hc.1
  · unfold successMessage
    split
    · exact contains_trans (contains_append_left _ _) hc.2
    · exact hc.2
  · unfold successMessage
    split
    · rename_i ht
      simp [ht]
    · rename_i ht
      exact ⟨fun h => absurd h (successHead_ne_with_warning response), fun h => absurd h ht⟩
  · intro h
    simp [successMessage, h, JsVal.truthy]
  · intro s h
    have hw := thumbnailWarning_contains response
    rw [h] at hw
    refine ⟨?_, ?_, hw.1, hw.2⟩
    · constructor
      · intro he hs0
        have : successMessage response = successHead response := by
          simp [successMessage, h, JsVal.truthy, hs0]
        rw [this] at he
        exact successHead_ne_with_warning response he
      · intro hne
        simp [successMessage, h, JsVal.truthy, hne]
    · intro hs0
      simp [successMessage, h, JsVal.truthy, hs0]
  · intro hu hi
    unfold successMessage
    split
    · rename_i ht
      simp only [ht, iff_true, String.data_append, List.mem_append]
      exact Or.inr (warningSign_mem_thumbnailWarning response)
    · rename_i ht
      exact ⟨fun h => absurd h (warningSign_mem_successHead response hu hi),
        fun h => absurd h ht⟩

theorem upload_success_message_witness :
    (step Engine.v8
        (.uploadDone (.load 200 (some (.value
          ⟨.bool true, .undefined, .str "https://youtu.be/abc", .str "abc", .undefined⟩))))
        uploadingPage).uploadBtnDisabled = false :=
  (upload_success_message Engine.v8 uploadingPage 200
    ⟨.bool true, .undefined, .str "https://youtu.be/abc", .str "abc", .undefined⟩
    (by decide) (by decide) rfl).2.1

/-- C7 as stated fails: a successful response without `thumbnail_error` whose
video id is the text `⚠️ תמונת תצוגה: abc` gets a success message that
contains the thumbnail warning text. -/
theorem upload_success_warning_without_error :
    warningInId.success = .bool true ∧ warningInId.thumbnail_error = .undefined ∧
      (step Engine.v8 (.uploadDone (.load 200 (some (.value warningInId))))
          uploadingPage).resultContainer =
        some ⟨"block", "<div class=\"result-success\">" ++ successMessage warningInId ++ "</div>"⟩ ∧
      successMessage warningInId = successHead warningInId ∧
      contains (successMessage warningInId) "⚠️ תמונת תצוגה: " := by
  have h : successMessage warningInId = successHead warningInId := rfl
  refine ⟨rfl, rfl, rfl, h, ?_⟩
  rw [h]
  refine contains_trans (successHead_contains warningInId).2 ?_
  exact ⟨"Video ID: ".data, "abc".data, by decide⟩

/-- Where the submit handler does finish: for every way the request ends other
than a 2xx status with a body that is not valid JSON or whose JSON has no
truthy `success`, the button is enabled again and a result is shown. -/
theorem upload_finish_settles (eng : Engine) (p : Page) (f : XhrFinish) (area : ResultArea)
    (hr : p.resultContainer = some area) (hf : 0 < p.uploadsInFlight)
    (h1 : ∀ status : Nat, f = .load status none → ¬ (200 ≤ status ∧ status < 300))
    (h2 : ∀ (status : Nat) (r : UploadFields), f = .load status (some (.value r)) →
      200 ≤ status ∧ status < 300 → r.success.truthy = true) :
    (step eng (.uploadDone f) p).uploadBtnDisabled = false ∧
      ∃ html : String, (step eng (.uploadDone f) p).resultContainer = some ⟨"block", html⟩ := by
  rw [step_uploadDone eng f p hf]
  have hcatch : ∀ m : String,
      (submitFinally (submitCatch m { p with uploadsInFlight := p.uploadsInFlight - 1 })
        ).uploadBtnDisabled = false ∧
      ∃ html : String,
        (submitFinally (submitCatch m { p with uploadsInFlight := p.uploadsInFlight - 1 })
          ).resultContainer = some ⟨"block", html⟩ := by
    intro m
    have h := submitCatch_fields m { p with uploadsInFlight := p.uploadsInFlight - 1 }
    refine ⟨h.2.2.2, errorHtml m, ?_⟩
    rw [h.1]
    show Option.map _ p.resultContainer = _
    rw [hr]
    rfl
  have hcatch100 : ∀ m : String,
      (submitFinally (submitCatch m (setProgress (.whole 100) (some "הושלם!")
        { p with uploadsInFlight := p.uploadsInFlight - 1 }))).uploadBtnDisabled = false ∧
      ∃ html : String,
        (submitFinally (submitCatch m (setProgress (.whole 100) (some "הושלם!")
          { p with uploadsInFlight := p.uploadsInFlight - 1 }))).resultContainer =
          some ⟨"block", html⟩ := by
    intro m
    have h := submitCatch_fields m (setProgress (.whole 100) (some "הושלם!")
      { p with uploadsInFlight := p.uploadsInFlight - 1 })
    refine ⟨h.2.2.2, errorHtml m, ?_⟩
    rw [h.1]
    show Option.map _ p.resultContainer = _
    rw [hr]
    rfl
  cases f with
  | error => exact hcatch _
  | load status body =>
    by_cases hs : 200 ≤ status ∧ status < 300
    · cases body with
      | none => exact absurd hs (h1 status rfl)
      | some j =>
        cases j with
        | null =>
          have hset : settle (.load status (some .null)) = .resolved .null := by
            simp [settle, xhrOnload, hs]
          rw [hset]
          exact hcatch100 _
        | value r =>
          have hset : settle (.load status (some (.value r))) = .resolved (.value r) := by
            simp [settle, xhrOnload, hs]
          rw [hset]
          simp only [onUploadSettled, h2 status r rfl hs, if_true]
          refine ⟨rfl,
            "<div class=\"result-" ++ "success" ++ "\">" ++ successMessage r ++ "</div>", ?_⟩
          show (showResult _ _ (setProgress _ _ _)).resultContainer = _
          rw [showResult_resultContainer]
          show Option.map _ p.resultContainer = _
          rw [hr]
          rfl
    · cases body with
      | none =>
        have hset : settle (.load status none) = .rejected ("שגיאה " ++ numToString status) := by
          simp [settle, xhrOnload, hs]
        rw [hset]
        exact hcatch _
      | some j =>
        cases j with
        | null =>
          have hset : settle (.load status (some .null)) =
              .rejected ("שגיאה " ++ numToString status) := by
            simp [settle, xhrOnload, hs]
          rw [hset]
          exact hcatch _
        | value r =>
          have hset : settle (.load status (some (.value r))) =
              .rejected (if r.error.truthy then r.error.toStr else "שגיאה בהעלאה") := by
            simp [settle, xhrOnload, hs]
          rw [hset]
          exact hcatch _

/-- C6, where the code departs from it: a response with status 200 whose body
is not valid JSON makes `xhr.onload` throw before it settles the promise, so
the handler never resumes: the submit button stays disabled, the result area
stays hidden and empty, the bar stays at 5% and the `SyntaxError` is caught by
nobody.  A 200 response whose JSON has no truthy `success` re-enables the button
but renders no result. -/
theorem upload_ok_status_invalid_json :
    (step Engine.v8 (.uploadDone (.load 200 none)) uploadingPage).uploadBtnDisabled = true ∧
      (step Engine.v8 (.uploadDone (.load 200 none)) uploadingPage).resultContainer =
        some ⟨"none", ""⟩ ∧
      (step Engine.v8 (.uploadDone (.load 200 none)) uploadingPage).progressPercent =
        some "5%" ∧
      (step Engine.v8 (.uploadDone (.load 200 none)) uploadingPage).uncaught =
        [JsError.syntaxError] ∧
      (step Engine.v8
          (.uploadDone (.load 200 (some (.value
            ⟨.undefined, .undefined, .undefined, .undefined, .undefined⟩))))
          uploadingPage).uploadBtnDisabled = false ∧
      (step Engine.v8
          (.uploadDone (.load 200 (some (.value
            ⟨.undefined, .undefined, .undefined, .undefined, .undefined⟩))))
          uploadingPage).resultContainer = some ⟨"none", ""⟩ := by
  decide

theorem Inv.of_initial {p : Page} (h : Initial p) : Inv p where
  path := by rw [h.2.2.1]; rfl
  one := fun i j fi fj hi _ hs _ => by
    have := h.2.2.2 fi (List.getElem?_mem hi)
    rw [this] at hs
    cases hs
  stored := fun f hf hs => by
    have := h.2.2.2 f hf
    rw [this] at hs
    cases hs

theorem Inv.same {p q : Page} (h : Inv p) (hs : SameCore q p) : Inv q where
  path := by rw [hs.1]; exact h.path
  one := by rw [hs.2]; exact h.one
  stored := by rw [hs.2, hs.1]; exact h.stored

theorem SameCore.refl (p : Page) : SameCore p p := ⟨rfl, rfl⟩

theorem SameCore.trans {a b c : Page} (h1 : SameCore a b) (h2 : SameCore b c) : SameCore a c :=
  ⟨h1.1.trans h2.1, h1.2.trans h2.2⟩

theorem foldl_onVideoSelected (l : List File) : ∀ q : Page,
    SameCore (l.foldl (fun q f => onVideoSelected f q) q) q := by
  induction l with
  | nil => intro q; exact SameCore.refl q
  | cons f l ih =>
    intro q
    exact SameCore.trans (ih (onVideoSelected f q)) ⟨rfl, rfl⟩

theorem foldl_onThumbSelected (l : List File) : ∀ q : Page,
    SameCore (l.foldl (fun q f => onThumbSelected f q) q) q := by
  induction l with
  | nil => intro q; exact SameCore.refl q
  | cons f l ih =>
    intro q
    exact SameCore.trans (ih (onThumbSelected f q)) ⟨rfl, rfl⟩

theorem videoZoneEvent_same (e : ZoneEvent) (p : Page) : SameCore (videoZoneEvent e p) p :=
  SameCore.trans (foldl_onVideoSelected _ _) ⟨rfl, rfl⟩

theorem thumbZoneEvent_same (e : ZoneEvent) (p : Page) : SameCore (thumbZoneEvent e p) p :=
  SameCore.trans (foldl_onThumbSelected _ _) ⟨rfl, rfl⟩

theorem showResult_same (type html : String) (p : Page) : SameCore (showResult type html p) p := by
  unfold showResult
  cases p.resultContainer <;> exact ⟨rfl, rfl⟩

theorem setProgress_same (c : Percent) (l : Option String) (p : Page) :
    SameCore (setProgress c l p) p := ⟨rfl, rfl⟩

theorem onSubmit_same (form : FormInput) (p : Page) : SameCore (onSubmit form p) p := by
  unfold onSubmit
  split
  · exact showResult_same _ _ _
  · split
    · exact ⟨rfl, rfl⟩
    · cases p.resultContainer <;> exact ⟨rfl, rfl⟩

theorem onUploadProgress_same (lc : Bool) (loaded total : Nat) (p : Page) :
    SameCore (onUploadProgress lc loaded total p) p := by
  unfold onUploadProgress
  split
  · exact setProgress_same _ _ _
  · exact SameCore.refl p

theorem submitCatch_same (m : String) (p : Page) : SameCore (submitFinally (submitCatch m p)) p :=
  SameCore.trans (b := submitCatch m p) ⟨rfl, rfl⟩
    (SameCore.trans (showResult_same _ _ _) (setProgress_same _ _ _))

theorem onUploadSettled_same (eng : Engine) (s : Settled) (p : Page) :
    SameCore (onUploadSettled eng s p) p := by
  unfold onUploadSettled
  split
  · exact ⟨rfl, rfl⟩
  · exact submitCatch_same _ _
  · exact SameCore.trans (submitCatch_same _ _) (setProgress_same _ _ _)
  · split
    · exact SameCore.trans (b := showResult _ _ (setProgress _ _ p)) ⟨rfl, rfl⟩
        (SameCore.trans (showResult_same _ _ _) (setProgress_same _ _ _))
    · exact ⟨rfl, rfl⟩

theorem onGenerateFramesClick_same (p : Page) : SameCore (onGenerateFramesClick p) p := by
  unfold onGenerateFramesClick
  split <;> exact ⟨rfl, rfl⟩

theorem NoneSelected.one {frames : List FrameItem} (h : NoneSelected frames) :
    AtMostOneSelected frames := fun i _ fi _ hi _ hs _ => by
  have := h fi (List.getElem?_mem hi)
  rw [this] at hs
  cases hs

theorem noneSelected_unmark (frames : List FrameItem) :
    NoneSelected (frames.map (fun f => { f with selected := false })) := by
  intro f hf
  obtain ⟨g, _, rfl⟩ := List.mem_map.1 hf
  rfl

theorem noneSelected_frameItem (frames : List FrameData) :
    NoneSelected (frames.map frameItem) := by
  intro f hf
  obtain ⟨g, _, rfl⟩ := List.mem_map.1 hf
  rfl

theorem inv_of_noneSelected (p : Page) (hp : p.selectedFramePath.isSome = true)
    (hn : NoneSelected p.frames) : Inv p where
  path := hp
  one := hn.one
  stored := fun f hf hsel => by
    have := hn f hf
    rw [this] at hsel
    cases hsel

theorem inv_clearFrameSelection (p : Page) (hp : p.selectedFramePath.isSome = true) :
    Inv (clearFrameSelection p) :=
  inv_of_noneSelected _
    (by
      unfold clearFrameSelection
      cases h : p.selectedFramePath <;> simp_all)
    (noneSelected_unmark p.frames)

theorem inv_onRemoveThumb {p : Page} (h : Inv p) : Inv (onRemoveThumb p) :=
  inv_clearFrameSelection _ h.path

theorem inv_readerOnload {p : Page} (h : Inv p) (i : Nat) : Inv (readerOnload i p) := by
  unfold readerOnload
  split
  · exact h
  · exact inv_clearFrameSelection _ h.path

/-- The frame list after `selectFrame` marked the `i`-th item `f`. -/
theorem marked_getElem? (frames : List FrameItem) (i j : Nat) (f g : FrameItem)
    (hg : ((frames.map (fun g => { g with selected := false })).set i
      { f with selected := true })[j]? = some g) :
    (g.selected = true ↔ j = i) ∧ (j = i → g = { f with selected := true }) := by
  rw [List.getElem?_set] at hg
  by_cases hij : i = j
  · subst hij
    simp only [if_true] at hg
    split at hg
    · cases hg
      simp
    · cases hg
  · simp only [hij, if_false] at hg
    have hm := noneSelected_unmark frames g (List.getElem?_mem hg)
    have hji : ¬ j = i := fun h => hij h.symm
    simp [hm, hji]

theorem inv_selectFrame {p : Page} (h : Inv p) (i : Nat) : Inv (selectFrame i p) := by
  unfold selectFrame
  split
  · exact h
  · rename_i f hf
    have hp := h.path
    cases hpath : p.selectedFramePath with
    | none => rw [hpath] at hp; cases hp
    | some v =>
      simp only []
      refine ⟨rfl, ?_, ?_⟩
      · intro a b fa fb ha hb hsa hsb
        have h1 := ((marked_getElem? p.frames i a f fa ha).1).1 hsa
        have h2 := ((marked_getElem? p.frames i b f fb hb).1).1 hsb
        omega
      · intro g hg hsel
        obtain ⟨j, hj⟩ := List.mem_iff_getElem?.1 hg
        have h1 := marked_getElem? p.frames i j f g hj
        have h2 := h1.2 (h1.1.1 hsel)
        rw [h2]

theorem inv_onExtractSettled {p : Page} (h : Inv p) (eng : Engine) (o : ExtractOutcome) :
    Inv (onExtractSettled eng o p) := by
  have hempty : NoneSelected ([] : List FrameItem) := fun f hf => by simp at hf
  unfold onExtractSettled
  split
  · exact h.same ⟨rfl, rfl⟩
  · exact h.same ⟨rfl, rfl⟩
  · exact h.same ⟨rfl, rfl⟩
  · exact inv_of_noneSelected _ h.path hempty
  · exact inv_of_noneSelected _ h.path hempty
  · rename_i frames
    exact inv_of_noneSelected _ h.path (noneSelected_frameItem frames)

theorem inv_step {p : Page} (h : Inv p) (eng : Engine) (e : Event) : Inv (step eng e p) := by
  cases e with
  | pickVideo files =>
    exact h.same (SameCore.trans (videoZoneEvent_same _ _) ⟨rfl, rfl⟩)
  | videoZone z => exact h.same (videoZoneEvent_same z p)
  | removeVideo => exact h.same ⟨rfl, rfl⟩
  | pickThumb files =>
    exact h.same (SameCore.trans (thumbZoneEvent_same _ _) ⟨rfl, rfl⟩)
  | thumbZone z => exact h.same (thumbZoneEvent_same z p)
  | removeThumb => exact inv_onRemoveThumb h
  | readerLoad i => exact inv_readerOnload h i
  | readerFail i => exact h.same ⟨rfl, rfl⟩
  | generateFrames => exact h.same (onGenerateFramesClick_same p)
  | extractDone o =>
    simp only [step]
    split
    · exact h
    · apply inv_onExtractSettled
      exact h.same ⟨rfl, rfl⟩
  | clickFrame i => exact inv_selectFrame h i
  | submit form => exact h.same (onSubmit_same form p)
  | uploadProgress lc loaded total =>
    simp only [step]
    split
    · exact h
    · exact h.same (onUploadProgress_same lc loaded total p)
  | uploadDone f =>
    simp only [step]
    split
    · exact h
    · exact h.same (SameCore.trans (onUploadSettled_same eng _ _) ⟨rfl, rfl⟩)

theorem inv_run (eng : Engine) (es : List Event) : ∀ p : Page, Inv p → Inv (run eng es p) := by
  induction es with
  | nil => intro p h; exact h
  | cons e es ih => intro p h; exact ih _ (inv_step h eng e)

theorem initial_blank : Initial Page.blank :=
  ⟨rfl, rfl, rfl, fun _ hf => by simp [Page.blank] at hf⟩

theorem selectFrame_fields (p : Page) (i : Nat) (f : FrameItem) (v : String)
    (hf : p.frames[i]? = some f) (hp : p.selectedFramePath = some v) :
    (selectFrame i p).frames =
        (p.frames.map (fun g => { g with selected := false })).set i { f with selected := true } ∧
      (selectFrame i p).selectedFramePath = some f.path ∧
      (selectFrame i p).thumbImageSrc = f.url ∧
      (selectFrame i p).thumbPreviewDisplay = "block" ∧
      (selectFrame i p).thumbZone.files = [] := by
  simp [selectFrame, hf, hp]

/-- C2, where the code departs from it: after choosing a video, generating
frames, clicking the first frame and then choosing a local thumbnail file, the
thumbnail input holds the file while the selected-frame path is still the
clicked frame's path and that frame is still marked.  The path is only emptied
by `reader.onload`; when the read ends in an error instead, both sources stay
set with no read left to empty the path.  Had the read fired `load`, the path
would be empty. -/
theorem thumbnail_sources_overlap :
    Initial Page.blank ∧
      (run Engine.v8 frameThenFile Page.blank).thumbZone.files = [sampleThumb] ∧
      (run Engine.v8 frameThenFile Page.blank).selectedFramePath =
        some "/tmp/frames/frame_0.jpg" ∧
      ((run Engine.v8 frameThenFile Page.blank).frames.map (fun f => f.selected)) =
        [true, false] ∧
      (run Engine.v8 frameThenFile Page.blank).pendingReads = [sampleThumb] ∧
      (run Engine.v8 (frameThenFile ++ [.readerFail 0]) Page.blank).thumbZone.files =
        [sampleThumb] ∧
      (run Engine.v8 (frameThenFile ++ [.readerFail 0]) Page.blank).selectedFramePath =
        some "/tmp/frames/frame_0.jpg" ∧
      (run Engine.v8 (frameThenFile ++ [.readerFail 0]) Page.blank).pendingReads = [] ∧
      (run Engine.v8 (frameThenFile ++ [.readerLoad 0]) Page.blank).selectedFramePath =
        some "" := by
  refine ⟨initial_blank, ?_, ?_, ?_, ?_, ?_, ?_, ?_, ?_⟩ <;> decide

/-- C9: in every state reachable from the initial page at most one frame is
marked selected, and a marked frame's path is the stored selected-frame path;
right after a click on a frame that frame is the only marked one, the stored
path is its path and the thumbnail preview shows its preview URL. -/
theorem frame_selection_exclusive (eng : Engine) (p0 : Page) (es : List Event)
    (h0 : Initial p0) :
    AtMostOneSelected (run eng es p0).frames ∧
      (∀ f ∈ (run eng es p0).frames, f.selected = true →
        (run eng es p0).selectedFramePath = some f.path) ∧
      ∀ (i : Nat) (f : FrameItem), (run eng es p0).frames[i]? = some f →
        (∀ (j : Nat) (g : FrameItem),
          (step eng (.clickFrame i) (run eng es p0)).frames[j]? = some g →
            (g.selected = true ↔ j = i)) ∧
        (step eng (.clickFrame i) (run eng es p0)).frames[i]? =
          some { f with selected := true } ∧
        (step eng (.clickFrame i) (run eng es p0)).selectedFramePath = some f.path ∧
        (step eng (.clickFrame i) (run eng es p0)).thumbImageSrc = f.url ∧
        (step eng (.clickFrame i) (run eng es p0)).thumbPreviewDisplay = "block" := by
  have h := inv_run eng es p0 (Inv.of_initial h0)
  obtain ⟨v, hv⟩ := Option.isSome_iff_exists.1 h.path
  refine ⟨h.one, h.stored, ?_⟩
  intro i f hf
  obtain ⟨e1, e2, e3, e4, _⟩ := selectFrame_fields _ i f v hf hv
  have hi : i < (run eng es p0).frames.length := (List.getElem?_eq_some.1 hf).1
  refine ⟨?_, ?_, e2, e3, e4⟩
  · intro j g hg
    simp only [step] at hg
    rw [e1] at hg
    exact (marked_getElem? _ i j f g hg).1
  · simp only [step]
    rw [e1, List.getElem?_set]
    simp [hi]

theorem frame_selection_exclusive_witness :
    AtMostOneSelected (run Engine.v8 clickTwoFrames Page.blank).frames ∧
      (run Engine.v8 clickTwoFrames Page.blank).selectedFramePath =
        some "/tmp/frames/frame_1.jpg" :=
  ⟨(frame_selection_exclusive Engine.v8 Page.blank clickTwoFrames initial_blank).1, by decide⟩

end VideoUpload
